import Mathlib

/-!
Verification development for the time-auction game-session orchestrator.

The definitions below are a shallow embedding of the server code:
`server/routes.ts` (the WebSocket handlers `handleJoinGame`,
`handlePlayerReady`, `handleBuzzerRelease`, `endCurrentRound`, `endGame`,
`broadcastToGame`, `handleEmptyGame`, `cleanupGames`) together with the
in-memory storage layer `server/storage.ts` (`MemStorage`).  JavaScript
numbers are modelled as rationals (`Rat`) where fractional values occur
(time banks, hold durations) and as `Nat` for identifiers, counters and
token counts.  JavaScript `Map`s keyed by id are modelled as lists with a
well-formedness predicate stating key uniqueness; `Map.set` keeps insertion
order on overwrite and appends on a fresh key, which the list operations
reproduce.  Wall-clock timestamps (`startedAt`/`endedAt`, `setInterval`
delays) are outside the model; broadcasts are modelled as the list of
messages delivered to the room's open connections.
-/

namespace TimeAuction

/-- Game lifecycle status, `game_status` enum of shared/schema.ts. -/
inductive GameStatus
  | waiting
  | inProgress
  | completed
deriving DecidableEq, BEq, Repr

/-- A row of the `game_participants` table (shared/schema.ts), as stored by
`MemStorage.gameParticipants`.  Fields the insert path leaves `undefined`
(`hasBidThisRound`, `lastHoldTime`) are modelled by their falsy values
`false` and `0`, which is how every read site treats them. -/
structure Participant where
  id : Nat
  gameId : Nat
  userId : Nat
  isHost : Bool
  isReady : Bool
  timeBank : Option Rat
  tokensWon : Nat
  isEliminated : Bool
  isBot : Bool
  hasBidThisRound : Bool
  lastHoldTime : Rat
deriving DecidableEq, Repr

/-- A row of the `games` table, as stored by `MemStorage.games`. -/
structure Game where
  id : Nat
  createdById : Nat
  status : GameStatus
  currentRound : Nat
  totalRounds : Nat
  startingTimeBank : Rat
  isPublic : Bool
  hasBots : Bool
  maxHoldTimeLastRound : Rat
  roundWinnerId : Option Nat
deriving DecidableEq, Repr

/-- One entry of the rankings array built by `endGame`. -/
structure RankEntry where
  userId : Nat
  tokens : Nat
  timeRemaining : Rat
deriving DecidableEq, Repr

/-- Server-to-client messages relevant to the handlers modelled here
(`GameEvent` of shared/schema.ts, payloads restricted to the fields the
claims mention). -/
inductive Ev
  | joinGame (gameId userId : Nat)
  | playerReady (gameId userId : Nat) (isReady : Bool)
  | buzzerHold (gameId userId : Nat)
  | buzzerRelease (gameId userId : Nat) (holdTime : Rat)
  | roundEnd (gameId roundNumber winnerId : Nat) (winnerHoldTime : Rat) (nextRound : Int)
  | gameEnd (gameId : Nat) (rankings : List RankEntry)
  | gameState (gameId : Nat)
  | playerLeft (gameId userId : Nat)
  | errorMsg
deriving DecidableEq, Repr

/-- One game room of the connection registry `gameClients`: the inner
`Map<userId, WebSocket>` is modelled as the list of member user ids, each
tagged with whether its socket is currently in the OPEN ready state. -/
abbrev RoomMembers := List (Nat × Bool)

/-- The server state: `MemStorage` (users, games, participants and the
participant id counter) together with the connection registry
`gameClients`. -/
structure Store where
  users : List Nat
  games : List Game
  participants : List Participant
  rooms : List (Nat × RoomMembers)
  participantIdCounter : Nat
deriving DecidableEq, Repr

/-- MemStorage.getUser, reduced to existence of the user id. -/
def Store.getUser (s : Store) (u : Nat) : Bool :=
  s.users.contains u

/-- MemStorage.getGame. -/
def Store.getGame (s : Store) (g : Nat) : Option Game :=
  s.games.find? (fun gm => gm.id == g)

/-- MemStorage.getPublicGames: games that are public and still waiting. -/
def Store.getPublicGames (s : Store) : List Game :=
  s.games.filter (fun gm => gm.isPublic && gm.status == GameStatus.waiting)

/-- Point update of the game row with the given id (JS `Map.set` on an
existing key keeps the entry in place). -/
def Store.updateGame (s : Store) (g : Nat) (f : Game → Game) : Store :=
  { s with games := s.games.map (fun gm => if gm.id == g then f gm else gm) }

/-- MemStorage.updateGameStatus. -/
def Store.updateGameStatus (s : Store) (g : Nat) (st : GameStatus) : Store :=
  s.updateGame g (fun gm => { gm with status := st })

/-- Modelled from the spec: `storage.updateGameRoundResults` is called by
`endCurrentRound` but its implementation is not part of the sources; per
the spec the round results update records the round winner and winning
hold duration on the game and advances `currentRound`, keyed by game id
like every other game update of `MemStorage`. -/
def Store.updateGameRoundResults (s : Store) (g : Nat) (winnerId : Option Nat)
    (maxHold : Rat) (round : Nat) : Store :=
  s.updateGame g (fun gm =>
    { gm with roundWinnerId := winnerId, maxHoldTimeLastRound := maxHold,
              currentRound := round })

/-- Modelled from the spec: `storage.updateGameHost` is called by
`handleJoinGame` but its implementation is not part of the sources; per the
spec it records the given user as the game's host, which the game row
exposes as `createdById` (the client's `hostId`). -/
def Store.updateGameHost (s : Store) (g u : Nat) : Store :=
  s.updateGame g (fun gm => { gm with createdById := u })

/-- MemStorage.getParticipant: lookup by the `gameId-userId` key. -/
def Store.getParticipant (s : Store) (g u : Nat) : Option Participant :=
  s.participants.find? (fun p => p.gameId == g && p.userId == u)

/-- MemStorage.getParticipantsByGame. -/
def Store.getParticipantsByGame (s : Store) (g : Nat) : List Participant :=
  s.participants.filter (fun p => p.gameId == g)

/-- Point update of the participant row with the given `gameId-userId` key
(MemStorage keys its participant map by that string). -/
def Store.updateParticipant (s : Store) (g u : Nat) (f : Participant → Participant) : Store :=
  { s with participants :=
      s.participants.map (fun p => if p.gameId == g && p.userId == u then f p else p) }

/-- MemStorage.updateParticipantReadyStatus. -/
def Store.updateParticipantReadyStatus (s : Store) (g u : Nat) (isReady : Bool) : Store :=
  s.updateParticipant g u (fun p => { p with isReady := isReady })

/-- MemStorage.updateParticipantHostStatus. -/
def Store.updateParticipantHostStatus (s : Store) (g u : Nat) (isHost : Bool) : Store :=
  s.updateParticipant g u (fun p => { p with isHost := isHost })

/-- MemStorage.updateParticipantTimeBank. -/
def Store.updateParticipantTimeBank (s : Store) (g u : Nat) (tb : Rat) : Store :=
  s.updateParticipant g u (fun p => { p with timeBank := some tb })

/-- MemStorage.updateParticipantTokens. -/
def Store.updateParticipantTokens (s : Store) (g u : Nat) (tokens : Nat) : Store :=
  s.updateParticipant g u (fun p => { p with tokensWon := tokens })

/-- MemStorage.eliminateParticipant. -/
def Store.eliminateParticipant (s : Store) (g u : Nat) : Store :=
  s.updateParticipant g u (fun p => { p with isEliminated := true })

/-- Modelled from the spec: `storage.updateParticipantBidDetails` is called
by `handleBuzzerRelease` and `endCurrentRound` but its implementation is
not part of the sources; per the spec it sets the per-round transient
fields (has-submitted-bid flag and last submitted hold duration), keyed by
the `gameId-userId` pair like every other participant update of
`MemStorage`. -/
def Store.updateParticipantBidDetails (s : Store) (g u : Nat)
    (hasBid : Bool) (hold : Rat) : Store :=
  s.updateParticipant g u (fun p =>
    { p with hasBidThisRound := hasBid, lastHoldTime := hold })

/-- MemStorage.addParticipant: a fresh row id from the counter, then
`Map.set` on the `gameId-userId` key — replace in place when the key is
already present, append otherwise. -/
def Store.addParticipant (s : Store) (p0 : Participant) : Store :=
  let p := { p0 with id := s.participantIdCounter }
  let present := s.participants.any (fun q => q.gameId == p.gameId && q.userId == p.userId)
  { s with
    participantIdCounter := s.participantIdCounter + 1,
    participants :=
      if present then
        s.participants.map (fun q =>
          if q.gameId == p.gameId && q.userId == p.userId then p else q)
      else s.participants ++ [p] }

/-- The room (inner map of `gameClients`) registered for a game, if any. -/
def Store.room (s : Store) (g : Nat) : Option RoomMembers :=
  (s.rooms.find? (fun r => r.1 == g)).map Prod.snd

/-- Number of members of a room whose socket is in the OPEN ready state. -/
def roomOpenCount (l : RoomMembers) : Nat :=
  (l.filter (fun m => m.2)).length

/-- Active clients of a game: OPEN sockets of its room, 0 when no room is
registered (`gameClients.get(id) || new Map()`). -/
def Store.openClients (s : Store) (g : Nat) : Nat :=
  match s.room g with
  | none => 0
  | some l => roomOpenCount l

/-- gameClients.delete(gameId). -/
def Store.deleteRoom (s : Store) (g : Nat) : Store :=
  { s with rooms := s.rooms.filter (fun r => r.1 != g) }

/-- Joining a room: create the inner map when absent, then
`set(userId, socket)` with the joiner's live (OPEN) socket. -/
def Store.roomAdd (s : Store) (g u : Nat) : Store :=
  match s.rooms.find? (fun r => r.1 == g) with
  | none => { s with rooms := s.rooms ++ [(g, [(u, true)])] }
  | some _ =>
      { s with rooms := s.rooms.map (fun r =>
          if r.1 == g then
            (r.1,
              if r.2.any (fun m => m.1 == u) then
                r.2.map (fun m => if m.1 == u then (u, true) else m)
              else r.2 ++ [(u, true)])
          else r) }

/-- JavaScript `Math.max` on two numbers: the second argument when it is
strictly larger, the first otherwise. -/
def mathMax (a b : Rat) : Rat :=
  if a < b then b else a

theorem mathMax_eq_max (a b : Rat) : mathMax a b = max a b := by
  unfold mathMax
  rcases lt_or_le a b with h | h
  · rw [if_pos h, max_eq_right h.le]
  · rw [if_neg (not_lt.mpr h), max_eq_left h]

/-- Difference of two rationals as an explicit integer-pair quotient
(equal to `a - b`; spelled this way so concrete values compute by
kernel reduction). -/
def ratSub (a b : Rat) : Rat :=
  Rat.divInt (a.num * (b.den : Int) - b.num * (a.den : Int)) ((a.den : Int) * (b.den : Int))

theorem ratSub_eq (a b : Rat) : ratSub a b = a - b := by
  unfold ratSub
  have ha : ((a.den : Rat)) ≠ 0 := Nat.cast_ne_zero.mpr a.den_nz
  have hb : ((b.den : Rat)) ≠ 0 := Nat.cast_ne_zero.mpr b.den_nz
  rw [Rat.divInt_eq_div]
  conv_rhs => rw [← Rat.num_div_den a, ← Rat.num_div_den b]
  rw [div_sub_div _ _ ha hb]
  push_cast
  ring_nf

/-- The source's `holdTime / 1000` millisecond-to-second conversion, as an
explicit integer-pair quotient (equal to `h / 1000`). -/
def msToSec (h : Rat) : Rat :=
  Rat.divInt h.num (1000 * (h.den : Int))

theorem msToSec_eq (h : Rat) : msToSec h = h / 1000 := by
  unfold msToSec
  have hd : ((h.den : Rat)) ≠ 0 := Nat.cast_ne_zero.mpr h.den_nz
  rw [Rat.divInt_eq_div]
  push_cast
  rw [mul_comm (1000 : Rat) (h.den : Rat), ← div_div, Rat.num_div_den h]

/-- handleEmptyGame (routes.ts): when a broadcast reached no open socket,
mark the game completed and drop its room if it has fewer than 2
participants, or is still waiting with an empty (yet registered) room.
`gameClients.get(id)?.size === 0` is false when no room is registered. -/
def handleEmptyGame (s : Store) (g : Nat) : Store :=
  match s.getGame g with
  | none => s
  | some game =>
      let ps := s.getParticipantsByGame g
      let sizeZero := match s.room g with
        | none => false
        | some l => l.length == 0
      if ps.length < 2 ∨ (game.status = GameStatus.waiting ∧ sizeZero = true) then
        (s.updateGameStatus g GameStatus.completed).deleteRoom g
      else s

/-- Whether a broadcast message is exempt from the empty-room cleanup check
(`GAME_STATE` and `GAME_CANCELLED` in the source; the latter is never
emitted by the handlers modelled here). -/
def Ev.skipsEmptyCheck : Ev → Bool
  | Ev.gameState _ => true
  | _ => false

/-- Whether a broadcast message triggers the full-state resync
(`ROUND_END`, `GAME_START`, `PLAYER_LEFT`). `GAME_START` is emitted by the
countdown-driven `startGame`, outside the single-message model. -/
def Ev.isStructural : Ev → Bool
  | Ev.roundEnd _ _ _ _ _ => true
  | Ev.playerLeft _ _ => true
  | _ => false

/-- broadcastToGame (routes.ts): deliver the message to every OPEN socket
of the game's room (no room registered: return at once); when nothing was
delivered and the message is not exempt, run `handleEmptyGame`; after a
structurally significant message, resend `GAME_STATE` to every open
socket. -/
def broadcastToGame (s : Store) (g : Nat) (ev : Ev) : Store × List Ev :=
  match s.room g with
  | none => (s, [])
  | some l =>
      let opened := roomOpenCount l
      let delivered := if 0 < opened then [ev] else []
      let s1 := if ev.skipsEmptyCheck = false ∧ opened = 0 then handleEmptyGame s g else s
      let resync := if ev.isStructural = true ∧ 0 < opened then [Ev.gameState g] else []
      (s1, delivered ++ resync)

/-- sendGameState (routes.ts), reduced to the message sent to the one
requesting socket; it performs no store mutation. -/
def sendGameState (s : Store) (g : Nat) : List Ev :=
  match s.getGame g with
  | none => [Ev.errorMsg]
  | some _ => [Ev.gameState g]

/-- Tail of handleJoinGame after the participant bookkeeping: register the
joiner's socket in the room, announce the join, send the full game state. -/
def joinFinish (s : Store) (g u : Nat) : Store × List Ev :=
  let s1 := s.roomAdd g u
  let br := broadcastToGame s1 g (Ev.joinGame g u)
  (br.1, br.2 ++ sendGameState br.1 g)

/-- handleJoinGame (routes.ts): reject an unknown game; reject a non-member
join of a non-waiting game; create a Participant (host iff creator and no
host yet, auto-ready iff host) when none exists; on a creator rejoin with
no host on record, promote them to host and mark them ready; then join the
room, announce, and send state. -/
def handleJoinGame (s : Store) (g u : Nat) : Store × List Ev :=
  match s.getGame g with
  | none => (s, [Ev.errorMsg])
  | some game =>
      if game.status ≠ GameStatus.waiting ∧ (s.getParticipant g u).isNone then
        (s, [Ev.errorMsg])
      else
        let isCreator := game.createdById == u
        match s.getParticipant g u with
        | none =>
            if s.getUser u = false then (s, [Ev.errorMsg])
            else
              let currentHost := (s.getParticipantsByGame g).find? (fun p => p.isHost)
              let shouldBeHost := isCreator && currentHost.isNone
              let s1 := s.addParticipant
                { id := 0, gameId := g, userId := u,
                  isHost := shouldBeHost, isReady := shouldBeHost,
                  timeBank := some game.startingTimeBank, tokensWon := 0,
                  isEliminated := false, isBot := false,
                  hasBidThisRound := false, lastHoldTime := 0 }
              let s2 := if shouldBeHost = true then s1.updateGameHost g u else s1
              joinFinish s2 g u
        | some p =>
            if isCreator = true ∧ p.isHost = false then
              let currentHost := (s.getParticipantsByGame g).find? (fun q => q.isHost)
              if currentHost.isNone then
                let s1 := s.updateParticipantHostStatus g u true
                let s2 := s1.updateGameHost g u
                let s3 := match s2.getParticipant g u with
                  | some q => if q.isReady = false then s2.updateParticipantReadyStatus g u true else s2
                  | none => s2
                joinFinish s3 g u
              else joinFinish s g u
            else joinFinish s g u

/-- handlePlayerReady (routes.ts): record the ready flag, broadcast it, and
start the game countdown when the game is waiting with at least 2
participants all of whom are ready.  The third component records whether
`startGameCountdown` was invoked. -/
def handlePlayerReady (s : Store) (g u : Nat) (isReady : Bool) :
    Store × List Ev × Bool :=
  let s1 := s.updateParticipantReadyStatus g u isReady
  let br := broadcastToGame s1 g (Ev.playerReady g u isReady)
  let started :=
    match br.1.getGame g with
    | some gm =>
        let ps := br.1.getParticipantsByGame g
        gm.status == GameStatus.waiting && decide (2 ≤ ps.length)
          && ps.all (fun p => p.isReady)
    | none => false
  (br.1, br.2, started)

/-- The JavaScript reduce of endCurrentRound:
`reduce((prev, current) => prev.lastHoldTime > current.lastHoldTime ? prev : current)`
over a non-empty bidder list (accumulator seeded with the head). -/
def jsMaxBidder (acc : Participant) : List Participant → Participant
  | [] => acc
  | c :: rest =>
      jsMaxBidder (if acc.lastHoldTime > c.lastHoldTime then acc else c) rest

/-- The bidders considered by endCurrentRound: participants neither
eliminated nor missing this round's bid flag. -/
def activeBiddersOf (ps : List Participant) : List Participant :=
  ps.filter (fun p => !p.isEliminated && p.hasBidThisRound)

/-- The round winner endCurrentRound selects, `none` when nobody bid. -/
def roundWinnerOf (ps : List Participant) : Option Participant :=
  match activeBiddersOf ps with
  | [] => none
  | h :: t => some (jsMaxBidder h t)

/-- Math.min over the token counts (`Math.min(...participants.map(...))`);
the value for an empty list is never used by `endGame`. -/
def lowestTokensOf (ps : List Participant) : Nat :=
  match ps.map (fun p => p.tokensWon) with
  | [] => 0
  | t :: ts => ts.foldl min t

/-- One rankings entry of endGame: `timeRemaining` is the time bank with
`null` mapped to 0. -/
def rankEntryOf (p : Participant) : RankEntry :=
  { userId := p.userId, tokens := p.tokensWon,
    timeRemaining := match p.timeBank with | some tb => tb | none => 0 }

/-- The order realised by endGame's sort comparator
`(a, b) => b.tokens - a.tokens, ties by (b.timeRemaining||0) - (a.timeRemaining||0)`:
`a` sorts no later than `b` when it has strictly more tokens, or equal
tokens and at least as much time remaining. -/
def rankLE (a b : RankEntry) : Prop :=
  b.tokens < a.tokens ∨ (a.tokens = b.tokens ∧ b.timeRemaining ≤ a.timeRemaining)

instance : DecidableRel rankLE := fun a b => by
  unfold rankLE; exact inferInstance

instance : IsTotal RankEntry rankLE where
  total a b := by
    unfold rankLE
    rcases Nat.lt_trichotomy a.tokens b.tokens with h | h | h
    · exact Or.inr (Or.inl h)
    · rcases le_total a.timeRemaining b.timeRemaining with ht | ht
      · exact Or.inr (Or.inr ⟨h.symm, ht⟩)
      · exact Or.inl (Or.inr ⟨h, ht⟩)
    · exact Or.inl (Or.inl h)

instance : IsTrans RankEntry rankLE where
  trans a b c hab hbc := by
    unfold rankLE at *
    rcases hab with h1 | ⟨h1, h1t⟩ <;> rcases hbc with h2 | ⟨h2, h2t⟩
    · exact Or.inl (h2.trans h1)
    · exact Or.inl (h2 ▸ h1)
    · exact Or.inl (h1 ▸ h2)
    · exact Or.inr ⟨h1.trans h2, h2t.trans h1t⟩

/-- The sorted rankings list endGame broadcasts (the comparator sort of the
source, realised as a stable comparison sort). -/
def endGameRankings (ps : List Participant) : List RankEntry :=
  List.insertionSort rankLE (ps.map rankEntryOf)

/-- endGame (routes.ts): mark the game completed, eliminate every
participant at the minimum token count, broadcast the sorted rankings. -/
def endGame (s : Store) (g : Nat) : Store × List Ev :=
  match s.getGame g with
  | none => (s, [])
  | some _ =>
      let s1 := s.updateGameStatus g GameStatus.completed
      let ps := s1.getParticipantsByGame g
      let lowest := lowestTokensOf ps
      let s2 := ps.foldl
        (fun acc p => if p.tokensWon = lowest then acc.eliminateParticipant g p.userId else acc)
        s1
      broadcastToGame s2 g (Ev.gameEnd g (endGameRankings ps))

/-- endCurrentRound (routes.ts): pick the winner among active bidders by
the JavaScript reduce; award a token via
`updateParticipantTokens(gameId, roundWinner.id, ...)` — the source passes
the participant row id where the storage key is the user id; record round
results and advance the round; reset bid details via
`updateParticipantBidDetails(gameId, p.id, ...)` — again the row id where
the key is the user id; broadcast `ROUND_END`; end the game when the last
round completed.  The delayed `ROUND_START` broadcast (a 3 s timer) is
outside the single-message model. -/
def endCurrentRound (s : Store) (g : Nat) : Store × List Ev :=
  match s.getGame g with
  | none => (s, [])
  | some game =>
      if game.status ≠ GameStatus.inProgress then (s, [])
      else
        let ps := s.getParticipantsByGame g
        let winner := roundWinnerOf ps
        let maxHold := match winner with | some w => w.lastHoldTime | none => 0
        let s1 := match winner with
          | some w => s.updateParticipantTokens g w.id (w.tokensWon + 1)
          | none => s
        let s2 := s1.updateGameRoundResults g (winner.map (fun w => w.id)) maxHold
          (game.currentRound + 1)
        let s3 := ps.foldl
          (fun acc p => acc.updateParticipantBidDetails g p.id false 0) s2
        match s3.getGame g with
        | none => (s3, [])
        | some game2 =>
            let nextRoundNumber := game2.currentRound
            let isLast := decide (game2.totalRounds ≤ nextRoundNumber - 1)
            let winnerId := match winner with | some w => w.id | none => 0
            let br := broadcastToGame s3 g
              (Ev.roundEnd g (nextRoundNumber - 1) winnerId maxHold
                (if isLast = true then (-1 : Int) else (nextRoundNumber : Int)))
            if isLast = true then
              let eg := endGame br.1 g
              (eg.1, br.2 ++ eg.2)
            else (br.1, br.2)

/-- handleBuzzerRelease (routes.ts): drop the message unless the game is in
progress and the sender is a non-eliminated participant who has not yet bid
this round; deduct the hold duration (ms → s) from a non-null time bank,
floored at 0; record the bid; broadcast the release; and end the round when
every non-eliminated participant of the refreshed list has a bid on record.
The third component records whether `endCurrentRound` was invoked. -/
def handleBuzzerRelease (s : Store) (g u : Nat) (holdTime : Rat) :
    Store × List Ev × Bool :=
  match s.getGame g with
  | none => (s, [], false)
  | some game =>
      if game.status ≠ GameStatus.inProgress then (s, [], false)
      else
        match s.getParticipant g u with
        | none => (s, [], false)
        | some p =>
            if p.isEliminated = true then (s, [], false)
            else if p.hasBidThisRound = true then (s, [], false)
            else
              let s1 := match p.timeBank with
                | some tb => s.updateParticipantTimeBank g u (mathMax 0 (ratSub tb (msToSec holdTime)))
                | none => s
              let s2 := s1.updateParticipantBidDetails g u true holdTime
              let br := broadcastToGame s2 g (Ev.buzzerRelease g u holdTime)
              let fresh := br.1.getParticipantsByGame g
              let active := fresh.filter (fun q => !q.isEliminated)
              let bidders := fresh.filter (fun q => q.hasBidThisRound)
              let allBid := decide (0 < active.length)
                && active.all (fun q => bidders.any (fun b => b.userId == q.userId))
              if allBid = true then
                let ec := endCurrentRound br.1 g
                (ec.1, br.2 ++ ec.2, true)
              else (br.1, br.2, false)

/-- One iteration of the cleanupGames loop for one snapshot game row:
complete and unbind the game when it has fewer than 2 participants or is
still waiting with no active client. -/
def cleanupStep (s : Store) (game : Game) : Store :=
  let ps := s.getParticipantsByGame game.id
  let activeClients := s.openClients game.id
  if ps.length < 2 ∨ (activeClients = 0 ∧ game.status = GameStatus.waiting) then
    (s.updateGameStatus game.id GameStatus.completed).deleteRoom game.id
  else s

/-- cleanupGames (routes.ts): iterate over the snapshot returned by
`storage.getPublicGames()` and apply the cleanup step to each row. -/
def cleanupGames (s : Store) : Store :=
  s.getPublicGames.foldl cleanupStep s

/-- Well-formedness of the server state, the invariants the JavaScript
`Map`s provide by construction: unique game ids, unique participant
`gameId-userId` keys, unique room keys, and no registered empty room (the
close handler deletes a room as soon as its last entry leaves). -/
structure Store.WF (s : Store) : Prop where
  gamesU : s.games.Pairwise (fun a b => a.id ≠ b.id)
  partsU : s.participants.Pairwise (fun a b => a.gameId ≠ b.gameId ∨ a.userId ≠ b.userId)
  roomsU : s.rooms.Pairwise (fun a b => a.1 ≠ b.1)
  roomsNE : ∀ r ∈ s.rooms, r.2 ≠ []

instance (s : Store) : Decidable s.WF :=
  decidable_of_iff
    (s.games.Pairwise (fun a b => a.id ≠ b.id)
      ∧ s.participants.Pairwise (fun a b => a.gameId ≠ b.gameId ∨ a.userId ≠ b.userId)
      ∧ s.rooms.Pairwise (fun a b => a.1 ≠ b.1)
      ∧ ∀ r ∈ s.rooms, r.2 ≠ [])
    ⟨fun h => ⟨h.1, h.2.1, h.2.2.1, h.2.2.2⟩, fun h => ⟨h.gamesU, h.partsU, h.roomsU, h.roomsNE⟩⟩

/-- The current round of a game, seen through the store. -/
def currentRoundOf (s : Store) (g : Nat) : Option Nat :=
  (s.getGame g).map (fun gm => gm.currentRound)

/-- The status of a game, seen through the store. -/
def statusOf (s : Store) (g : Nat) : Option GameStatus :=
  (s.getGame g).map (fun gm => gm.status)

/-- The last-round winner recorded on a game, seen through the store. -/
def roundWinnerIdOf (s : Store) (g : Nat) : Option (Option Nat) :=
  (s.getGame g).map (fun gm => gm.roundWinnerId)

/-- The time bank of one participant row, seen through the store. -/
def tbOf (s : Store) (g u : Nat) : Option (Option Rat) :=
  (s.getParticipant g u).map (fun p => p.timeBank)

/-- The time banks of all participant rows, in store order. -/
def tbs (s : Store) : List (Option Rat) :=
  s.participants.map (fun p => p.timeBank)

theorem find?_map_pred {α : Type} (φ : α → α) (p : α → Bool)
    (hφ : ∀ a, p (φ a) = p a) :
    ∀ l : List α, (l.map φ).find? p = (l.find? p).map φ := by
  intro l
  induction l with
  | nil => rfl
  | cons a l ih =>
      by_cases h : p a = true
      · simp [List.find?_cons, hφ, h]
      · simp only [Bool.not_eq_true] at h
        simp [List.find?_cons, hφ, h, ih]

theorem filter_map_pred {α : Type} (φ : α → α) (p : α → Bool)
    (hφ : ∀ a, p (φ a) = p a) :
    ∀ l : List α, (l.map φ).filter p = (l.filter p).map φ := by
  intro l
  induction l with
  | nil => rfl
  | cons a l ih =>
      by_cases h : p a = true
      · simp [List.filter_cons, hφ, h, ih]
      · simp only [Bool.not_eq_true] at h
        simp [List.filter_cons, hφ, h, ih]

theorem updateGame_participants (s : Store) (g : Nat) (f : Game → Game) :
    (s.updateGame g f).participants = s.participants := rfl

theorem updateGame_rooms (s : Store) (g : Nat) (f : Game → Game) :
    (s.updateGame g f).rooms = s.rooms := rfl

theorem updateParticipant_games (s : Store) (g u : Nat) (f : Participant → Participant) :
    (s.updateParticipant g u f).games = s.games := rfl

theorem updateParticipant_rooms (s : Store) (g u : Nat) (f : Participant → Participant) :
    (s.updateParticipant g u f).rooms = s.rooms := rfl

theorem deleteRoom_participants (s : Store) (g : Nat) :
    (s.deleteRoom g).participants = s.participants := rfl

theorem deleteRoom_games (s : Store) (g : Nat) :
    (s.deleteRoom g).games = s.games := rfl

theorem addParticipant_games (s : Store) (p : Participant) :
    (s.addParticipant p).games = s.games := rfl

theorem addParticipant_rooms (s : Store) (p : Participant) :
    (s.addParticipant p).rooms = s.rooms := rfl

theorem roomAdd_participants (s : Store) (g u : Nat) :
    (s.roomAdd g u).participants = s.participants := by
  unfold Store.roomAdd
  cases s.rooms.find? (fun r => r.1 == g) <;> rfl

theorem roomAdd_games (s : Store) (g u : Nat) :
    (s.roomAdd g u).games = s.games := by
  unfold Store.roomAdd
  cases s.rooms.find? (fun r => r.1 == g) <;> rfl

theorem handleEmptyGame_participants (s : Store) (g : Nat) :
    (handleEmptyGame s g).participants = s.participants := by
  unfold handleEmptyGame
  cases s.getGame g with
  | none => rfl
  | some game =>
      dsimp only
      split <;> rfl

theorem broadcastToGame_participants (s : Store) (g : Nat) (ev : Ev) :
    (broadcastToGame s g ev).1.participants = s.participants := by
  unfold broadcastToGame
  cases s.room g with
  | none => rfl
  | some l =>
      dsimp only
      split
      · exact handleEmptyGame_participants s g
      · rfl

theorem getGame_congr {s₁ s₂ : Store} (h : s₁.games = s₂.games) (g : Nat) :
    s₁.getGame g = s₂.getGame g := by
  unfold Store.getGame; rw [h]

theorem getParticipantsByGame_congr {s₁ s₂ : Store}
    (h : s₁.participants = s₂.participants) (g : Nat) :
    s₁.getParticipantsByGame g = s₂.getParticipantsByGame g := by
  unfold Store.getParticipantsByGame; rw [h]

theorem getParticipant_congr {s₁ s₂ : Store}
    (h : s₁.participants = s₂.participants) (g u : Nat) :
    s₁.getParticipant g u = s₂.getParticipant g u := by
  unfold Store.getParticipant; rw [h]

theorem getGame_updateGame (s : Store) (g x : Nat) (f : Game → Game)
    (hf : ∀ gm, (f gm).id = gm.id) :
    (s.updateGame g f).getGame x
      = (s.getGame x).map (fun gm => if gm.id == g then f gm else gm) := by
  unfold Store.getGame Store.updateGame
  exact find?_map_pred _ _
    (fun a => by by_cases h : (a.id == g) = true <;> simp [h, hf]) s.games

theorem getParticipant_updateParticipant (s : Store) (g u x y : Nat)
    (f : Participant → Participant)
    (hf : ∀ p, (f p).gameId = p.gameId ∧ (f p).userId = p.userId) :
    (s.updateParticipant g u f).getParticipant x y
      = (s.getParticipant x y).map
          (fun p => if p.gameId == g && p.userId == u then f p else p) := by
  unfold Store.getParticipant Store.updateParticipant
  refine find?_map_pred _ _ (fun a => ?_) s.participants
  by_cases h : (a.gameId == g && a.userId == u) = true
  · simp [h, (hf a).1, (hf a).2]
  · simp [h]

theorem getParticipantsByGame_updateParticipant (s : Store) (g u x : Nat)
    (f : Participant → Participant)
    (hf : ∀ p, (f p).gameId = p.gameId) :
    (s.updateParticipant g u f).getParticipantsByGame x
      = (s.getParticipantsByGame x).map
          (fun p => if p.gameId == g && p.userId == u then f p else p) := by
  unfold Store.getParticipantsByGame Store.updateParticipant
  refine filter_map_pred _ _ (fun a => ?_) s.participants
  by_cases h : (a.gameId == g && a.userId == u) = true
  · simp [h, hf a]
  · simp [h]

theorem hbGuardNoop (s : Store) (g u : Nat) (h : Rat)
    (hguard : s.getGame g = none
      ∨ (∃ gm, s.getGame g = some gm ∧ gm.status ≠ GameStatus.inProgress)
      ∨ s.getParticipant g u = none
      ∨ (∃ p, s.getParticipant g u = some p ∧ p.isEliminated = true)) :
    handleBuzzerRelease s g u h = (s, [], false) := by
  unfold handleBuzzerRelease
  rcases hguard with hg | ⟨gm, hg, hst⟩ | hp | ⟨p, hp, he⟩
  · rw [hg]
  · rw [hg]; simp [hst]
  · cases hgm : s.getGame g with
    | none => rfl
    | some gm =>
        dsimp only
        split
        · rfl
        · rw [hp]
  · cases hgm : s.getGame g with
    | none => rfl
    | some gm =>
        dsimp only
        split
        · rfl
        · rw [hp]; simp [he]

/-- C10: a BUZZER_RELEASE naming a missing game, a game that is not in
progress, a sender with no participant row, or an eliminated sender is
dropped by `handleBuzzerRelease`: the store is unchanged, no message is
sent to any client, and round resolution is not invoked. -/
theorem buzzerRelease_invalid_silently_dropped (s : Store) (g u : Nat) (h : Rat)
    (hguard : s.getGame g = none
      ∨ (∃ gm, s.getGame g = some gm ∧ gm.status ≠ GameStatus.inProgress)
      ∨ s.getParticipant g u = none
      ∨ (∃ p, s.getParticipant g u = some p ∧ p.isEliminated = true)) :
    handleBuzzerRelease s g u h = (s, [], false) :=
  hbGuardNoop s g u h hguard

def storeC10 : Store :=
  { users := [], games := [], participants := [], rooms := [], participantIdCounter := 1 }

/-- Witness for C10: a release referencing the nonexistent game 1 is a
complete no-op. -/
theorem buzzerRelease_invalid_silently_dropped_witness :
    handleBuzzerRelease storeC10 1 10 5 = (storeC10, [], false) :=
  buzzerRelease_invalid_silently_dropped storeC10 1 10 5 (Or.inl (by decide))

theorem hbDupNoop (s : Store) (g u : Nat) (h : Rat)
    (gm : Game) (p : Participant)
    (hg : s.getGame g = some gm) (hst : gm.status = GameStatus.inProgress)
    (hp : s.getParticipant g u = some p) (he : p.isEliminated = false)
    (hb : p.hasBidThisRound = true) :
    handleBuzzerRelease s g u h = (s, [], false) := by
  unfold handleBuzzerRelease
  rw [hg]
  simp [hst, hp, he, hb]

/-- C8: a second BUZZER_RELEASE in the same round (sender's
`hasBidThisRound` already set) is silently dropped: no ERROR, no broadcast,
store (time bank, tokens, bid fields, round bookkeeping) unchanged, and no
round resolution. -/
theorem buzzerRelease_duplicate_dropped (s : Store) (g u : Nat) (h : Rat)
    (gm : Game) (p : Participant)
    (hg : s.getGame g = some gm) (hst : gm.status = GameStatus.inProgress)
    (hp : s.getParticipant g u = some p) (he : p.isEliminated = false)
    (hb : p.hasBidThisRound = true) :
    handleBuzzerRelease s g u h = (s, [], false) :=
  hbDupNoop s g u h gm p hg hst hp he hb

def gameC8 : Game :=
  { id := 1, createdById := 10, status := GameStatus.inProgress,
    currentRound := 1, totalRounds := 3, startingTimeBank := 60, isPublic := true,
    hasBots := false, maxHoldTimeLastRound := 0, roundWinnerId := none }

def partC8 : Participant :=
  { id := 1, gameId := 1, userId := 10, isHost := true, isReady := true,
    timeBank := some 55, tokensWon := 0, isEliminated := false, isBot := false,
    hasBidThisRound := true, lastHoldTime := 5000 }

def storeC8 : Store :=
  { users := [10], games := [gameC8], participants := [partC8],
    rooms := [], participantIdCounter := 2 }

/-- Witness for C8: user 10 already bid 5000 ms this round; a second
release for 4000 ms changes nothing and sends nothing. -/
theorem buzzerRelease_duplicate_dropped_witness :
    handleBuzzerRelease storeC8 1 10 4000 = (storeC8, [], false) :=
  buzzerRelease_duplicate_dropped storeC8 1 10 4000 gameC8 partC8
    (by decide) (by decide) (by decide) (by decide) (by decide)

def gameC1 : Game :=
  { id := 1, createdById := 10, status := GameStatus.inProgress,
    currentRound := 1, totalRounds := 3, startingTimeBank := 60, isPublic := true,
    hasBots := false, maxHoldTimeLastRound := 0, roundWinnerId := none }

def winC1 : Participant :=
  { id := 7, gameId := 1, userId := 10, isHost := true, isReady := true,
    timeBank := some 55, tokensWon := 0, isEliminated := false, isBot := false,
    hasBidThisRound := true, lastHoldTime := 5000 }

def loseC1 : Participant :=
  { id := 8, gameId := 1, userId := 11, isHost := false, isReady := true,
    timeBank := some 57, tokensWon := 0, isEliminated := false, isBot := false,
    hasBidThisRound := true, lastHoldTime := 3000 }

def storeC1 : Store :=
  { users := [10, 11], games := [gameC1], participants := [winC1, loseC1],
    rooms := [], participantIdCounter := 9 }

/-- C1 (code bug): in `storeC1` the round has a unique strictly-greatest
bidder (user 10, participant row id 7, 5000 ms against 3000 ms), yet after
`endCurrentRound` no participant's `tokensWon` has changed — the token
award is keyed by the winner's row id 7, which matches no user id of the
game — while the round still advances. -/
theorem endCurrentRound_token_award_lost :
    roundWinnerOf (storeC1.getParticipantsByGame 1) = some winC1
    ∧ loseC1.lastHoldTime < winC1.lastHoldTime
    ∧ winC1.userId = 10 ∧ winC1.tokensWon = 0
    ∧ (∀ q ∈ (endCurrentRound storeC1 1).1.getParticipantsByGame 1, q.tokensWon = 0)
    ∧ currentRoundOf (endCurrentRound storeC1 1).1 1 = some 2 := by decide

def gameC2x : Game :=
  { id := 1, createdById := 10, status := GameStatus.inProgress,
    currentRound := 1, totalRounds := 3, startingTimeBank := 60, isPublic := true,
    hasBots := false, maxHoldTimeLastRound := 0, roundWinnerId := none }

def storeC2x : Store :=
  { users := [10, 11], games := [gameC2x],
    participants :=
      [{ id := 1, gameId := 1, userId := 10, isHost := true, isReady := true,
         timeBank := some 55, tokensWon := 0, isEliminated := true, isBot := false,
         hasBidThisRound := false, lastHoldTime := 0 },
       { id := 2, gameId := 1, userId := 11, isHost := false, isReady := true,
         timeBank := some 57, tokensWon := 0, isEliminated := true, isBot := false,
         hasBidThisRound := false, lastHoldTime := 0 }],
    rooms := [], participantIdCounter := 3 }

/-- Counterexample to C2: in `storeC2x` every participant of game 1 is
eliminated; a BUZZER_RELEASE is dropped at the elimination guard, so the
round does not resolve and `currentRound` stays 1 instead of advancing. -/
theorem buzzerRelease_all_eliminated_no_resolution :
    (∀ q ∈ storeC2x.getParticipantsByGame 1, q.isEliminated = true)
    ∧ handleBuzzerRelease storeC2x 1 10 2000 = (storeC2x, [], false)
    ∧ currentRoundOf (handleBuzzerRelease storeC2x 1 10 2000).1 1 = some 1 := by
  decide

def gameC3x : Game :=
  { id := 1, createdById := 10, status := GameStatus.waiting,
    currentRound := 0, totalRounds := 3, startingTimeBank := 60, isPublic := true,
    hasBots := true, maxHoldTimeLastRound := 0, roundWinnerId := none }

def storeC3x : Store :=
  { users := [10, 11], games := [gameC3x],
    participants :=
      [{ id := 1, gameId := 1, userId := 10, isHost := true, isReady := true,
         timeBank := some 60, tokensWon := 0, isEliminated := false, isBot := false,
         hasBidThisRound := false, lastHoldTime := 0 },
       { id := 2, gameId := 1, userId := 11, isHost := false, isReady := true,
         timeBank := some 60, tokensWon := 0, isEliminated := false, isBot := true,
         hasBidThisRound := false, lastHoldTime := 0 }],
    rooms := [], participantIdCounter := 3 }

/-- Counterexample to C3: in `storeC3x` the waiting game has one human and
one bot, both ready; only one non-bot, non-eliminated participant exists,
yet PLAYER_READY starts the countdown — the source counts every
participant, bots included. -/
theorem playerReady_bot_counted_toward_start :
    (handlePlayerReady storeC3x 1 10 true).2.2 = true
    ∧ ((storeC3x.getParticipantsByGame 1).filter
        (fun p => !p.isBot && !p.isEliminated)).length < 2 := by decide

def storeC4x : Store :=
  { users := [10, 11], games := [gameC2x],
    participants :=
      [{ id := 1, gameId := 1, userId := 10, isHost := true, isReady := true,
         timeBank := some 60, tokensWon := 0, isEliminated := false, isBot := false,
         hasBidThisRound := false, lastHoldTime := 0 },
       { id := 2, gameId := 1, userId := 11, isHost := false, isReady := true,
         timeBank := some 60, tokensWon := 0, isEliminated := false, isBot := false,
         hasBidThisRound := false, lastHoldTime := 0 }],
    rooms := [], participantIdCounter := 3 }

/-- Counterexample to C4: the dispatcher accepts any JavaScript number as
`holdTime`; a release of −5000 ms is processed by `handleBuzzerRelease`
and raises user 10's time bank from 60 to 65 — the budget is not
monotonically non-increasing. -/
theorem buzzerRelease_negative_hold_increases_bank :
    tbOf storeC4x 1 10 = some (some 60)
    ∧ tbOf (handleBuzzerRelease storeC4x 1 10 (-5000)).1 1 10 = some (some 65)
    ∧ (60 : Rat) < 65 := by decide

def p1C5 : Participant :=
  { id := 1, gameId := 1, userId := 10, isHost := true, isReady := true,
    timeBank := some 55, tokensWon := 0, isEliminated := false, isBot := false,
    hasBidThisRound := true, lastHoldTime := 5000 }

def p2C5 : Participant :=
  { id := 2, gameId := 1, userId := 11, isHost := false, isReady := true,
    timeBank := some 55, tokensWon := 0, isEliminated := false, isBot := false,
    hasBidThisRound := true, lastHoldTime := 5000 }

def storeC5x : Store :=
  { users := [10, 11], games := [gameC2x], participants := [p1C5, p2C5],
    rooms := [], participantIdCounter := 3 }

/-- Counterexample to C5: the two bidders of game 1 hold for exactly
5000 ms each; the reduce of `endCurrentRound` keeps the *later* bidder on
an exact tie (`prev > current` is false), so the selected winner is the
second bidder, not the first. -/
theorem endCurrentRound_tie_goes_to_last :
    storeC5x.getParticipantsByGame 1 = [p1C5, p2C5]
    ∧ p1C5.lastHoldTime = p2C5.lastHoldTime
    ∧ p1C5 ≠ p2C5
    ∧ roundWinnerOf (storeC5x.getParticipantsByGame 1) = some p2C5
    ∧ roundWinnerIdOf (endCurrentRound storeC5x 1).1 1 = some (some p2C5.id) := by
  decide

def gameC9x : Game :=
  { id := 1, createdById := 10, status := GameStatus.inProgress,
    currentRound := 2, totalRounds := 3, startingTimeBank := 60, isPublic := true,
    hasBots := false, maxHoldTimeLastRound := 0, roundWinnerId := none }

def storeC9x : Store :=
  { users := [10], games := [gameC9x],
    participants :=
      [{ id := 1, gameId := 1, userId := 10, isHost := true, isReady := true,
         timeBank := some 55, tokensWon := 1, isEliminated := false, isBot := false,
         hasBidThisRound := false, lastHoldTime := 0 }],
    rooms := [], participantIdCounter := 2 }

/-- Counterexample to C9: game 1 is open (in progress) with a single
participant — below the minimum of 2 — yet `cleanupGames` leaves it
untouched, because the sweep only iterates `getPublicGames()`, which
returns public *waiting* games. -/
theorem cleanup_skips_open_nonwaiting_game :
    (storeC9x.getParticipantsByGame 1).length < 2
    ∧ statusOf storeC9x 1 = some GameStatus.inProgress
    ∧ cleanupGames storeC9x = storeC9x
    ∧ statusOf (cleanupGames storeC9x) 1 = some GameStatus.inProgress := by decide

theorem jsMaxBidder_split (h : Participant) (t : List Participant) :
    ∃ l₁ l₂, h :: t = l₁ ++ jsMaxBidder h t :: l₂
      ∧ (∀ p ∈ l₁, p.lastHoldTime ≤ (jsMaxBidder h t).lastHoldTime)
      ∧ (∀ p ∈ l₂, p.lastHoldTime < (jsMaxBidder h t).lastHoldTime) := by
  induction t generalizing h with
  | nil => exact ⟨[], [], rfl, by simp, by simp⟩
  | cons c rest ih =>
      by_cases hc : c.lastHoldTime < h.lastHoldTime
      · have e : jsMaxBidder h (c :: rest) = jsMaxBidder h rest := by
          simp only [jsMaxBidder, gt_iff_lt, if_pos hc]
        obtain ⟨l₁, l₂, heq, h₁, h₂⟩ := ih h
        rw [e]
        cases l₁ with
        | nil =>
            simp only [List.nil_append] at heq
            obtain ⟨hw, hl₂⟩ := List.cons.injEq .. ▸ heq
            refine ⟨[], c :: l₂, ?_, by simp, ?_⟩
            · simp [← hw, ← hl₂]
            · intro p hp
              rcases List.mem_cons.mp hp with hp | hp
              · subst hp; rw [← hw]; exact hc
              · exact h₂ p hp
        | cons a l₁t =>
            simp only [List.cons_append] at heq
            obtain ⟨ha, hrest⟩ := List.cons.injEq .. ▸ heq
            refine ⟨h :: c :: l₁t, l₂, ?_, ?_, h₂⟩
            · simp [← hrest]
            · intro p hp
              rcases List.mem_cons.mp hp with hp | hp
              · subst hp
                exact ha ▸ h₁ a (List.mem_cons_self a l₁t)
              · rcases List.mem_cons.mp hp with hp | hp
                · subst hp
                  exact le_of_lt (lt_of_lt_of_le hc (ha ▸ h₁ a (List.mem_cons_self a l₁t)))
                · exact h₁ p (List.mem_cons_of_mem a hp)
      · have e : jsMaxBidder h (c :: rest) = jsMaxBidder c rest := by
          simp only [jsMaxBidder, gt_iff_lt, if_neg hc]
        have hc2 : h.lastHoldTime ≤ c.lastHoldTime := not_lt.mp hc
        obtain ⟨l₁, l₂, heq, h₁, h₂⟩ := ih c
        rw [e]
        cases l₁ with
        | nil =>
            simp only [List.nil_append] at heq
            obtain ⟨hw, hl₂⟩ := List.cons.injEq .. ▸ heq
            refine ⟨[h], l₂, ?_, ?_, h₂⟩
            · simp [← hw, ← hl₂]
            · intro p hp
              rcases List.mem_singleton.mp hp with rfl
              rw [← hw]; exact hc2
        | cons a l₁t =>
            simp only [List.cons_append] at heq
            obtain ⟨ha, hrest⟩ := List.cons.injEq .. ▸ heq
            refine ⟨h :: c :: l₁t, l₂, ?_, ?_, h₂⟩
            · simp [← hrest]
            · intro p hp
              rcases List.mem_cons.mp hp with hp | hp
              · subst hp
                exact le_trans hc2 (ha ▸ h₁ a (List.mem_cons_self a l₁t))
              · rcases List.mem_cons.mp hp with hp | hp
                · subst hp
                  exact ha ▸ h₁ a (List.mem_cons_self a l₁t)
                · exact h₁ p (List.mem_cons_of_mem a hp)

/-- C5 (amended): when a round has bidders, the winner `endCurrentRound`
selects (the source's reduce with a strict `>` comparison) is the LAST
bidder attaining the maximal recorded hold duration: the bidder list splits
into earlier bidders holding at most as long and later bidders holding
strictly less.  On an exact tie the later bidder therefore wins, not the
first one. -/
theorem roundWinner_is_last_encountered_max (ps : List Participant)
    (h : Participant) (t : List Participant)
    (hl : activeBiddersOf ps = h :: t) :
    ∃ l₁ l₂, roundWinnerOf ps = some (jsMaxBidder h t)
      ∧ activeBiddersOf ps = l₁ ++ jsMaxBidder h t :: l₂
      ∧ (∀ p ∈ l₁, p.lastHoldTime ≤ (jsMaxBidder h t).lastHoldTime)
      ∧ (∀ p ∈ l₂, p.lastHoldTime < (jsMaxBidder h t).lastHoldTime) := by
  obtain ⟨l₁, l₂, heq, h₁, h₂⟩ := jsMaxBidder_split h t
  refine ⟨l₁, l₂, ?_, by rw [hl]; exact heq, h₁, h₂⟩
  unfold roundWinnerOf
  rw [hl]

def pa5w : Participant :=
  { id := 1, gameId := 1, userId := 10, isHost := true, isReady := true,
    timeBank := some 55, tokensWon := 0, isEliminated := false, isBot := false,
    hasBidThisRound := true, lastHoldTime := 3000 }

def pb5w : Participant :=
  { id := 2, gameId := 1, userId := 11, isHost := false, isReady := true,
    timeBank := some 52, tokensWon := 0, isEliminated := false, isBot := false,
    hasBidThisRound := true, lastHoldTime := 5000 }

/-- Witness for the amended C5 at a concrete two-bidder list. -/
theorem roundWinner_is_last_encountered_max_witness :
    ∃ l₁ l₂, roundWinnerOf [pa5w, pb5w] = some (jsMaxBidder pa5w [pb5w])
      ∧ activeBiddersOf [pa5w, pb5w] = l₁ ++ jsMaxBidder pa5w [pb5w] :: l₂
      ∧ (∀ p ∈ l₁, p.lastHoldTime ≤ (jsMaxBidder pa5w [pb5w]).lastHoldTime)
      ∧ (∀ p ∈ l₂, p.lastHoldTime < (jsMaxBidder pa5w [pb5w]).lastHoldTime) :=
  roundWinner_is_last_encountered_max [pa5w, pb5w] pa5w [pb5w] (by decide)

/-- The pointwise effect on one stored row of the elimination loop of
`endGame` run over the snapshot list `L` with minimum `m`. -/
def elimMark (g : Nat) (m : Nat) (L : List Participant) (r : Participant) : Participant :=
  if r.gameId == g && L.any (fun p => decide (p.tokensWon = m) && p.userId == r.userId)
  then { r with isEliminated := true } else r

theorem foldElim_participants (g : Nat) (m : Nat) (L : List Participant) (s : Store) :
    (L.foldl (fun acc p =>
        if p.tokensWon = m then acc.eliminateParticipant g p.userId else acc) s).participants
      = s.participants.map (elimMark g m L) := by
  induction L generalizing s with
  | nil =>
      rw [List.foldl_nil]
      conv_lhs => rw [← List.map_id s.participants]
      exact List.map_congr_left (fun r _ => by simp [elimMark])
  | cons p L ih =>
      rw [List.foldl_cons]
      by_cases hap : p.tokensWon = m
      · rw [if_pos hap, ih]
        unfold Store.eliminateParticipant Store.updateParticipant
        simp only [List.map_map]
        refine List.map_congr_left (fun r _ => ?_)
        simp only [Function.comp_apply, elimMark]
        by_cases hkey : (r.gameId == g && r.userId == p.userId) = true
        · rw [if_pos hkey]
          have hg2 : (r.gameId == g) = true := (Bool.and_eq_true .. ▸ hkey).1
          have hu : (r.userId == p.userId) = true := (Bool.and_eq_true .. ▸ hkey).2
          have hu2 : (p.userId == r.userId) = true := by
            simp only [beq_iff_eq] at hu ⊢; exact hu.symm
          simp [hg2, hu2, hap]
        · rw [if_neg hkey]
          by_cases hg2 : (r.gameId == g) = true
          · have hu : (r.userId == p.userId) = false := by
              cases h : (r.userId == p.userId)
              · rfl
              · exact absurd (by rw [hg2, h]; rfl) hkey
            have hu2 : (p.userId == r.userId) = false := by
              simp only [beq_eq_false_iff_ne, ne_eq] at hu ⊢
              exact fun e => hu e.symm
            simp [hg2, hu2]
          · simp only [Bool.not_eq_true] at hg2
            simp [hg2]
      · rw [if_neg hap, ih]
        refine List.map_congr_left (fun r _ => ?_)
        unfold elimMark
        have : decide (p.tokensWon = m) = false := decide_eq_false hap
        simp [this]

theorem lowestTokens_map_elimMark (g : Nat) (m : Nat) (L l : List Participant) :
    lowestTokensOf (l.map (elimMark g m L)) = lowestTokensOf l := by
  unfold lowestTokensOf
  have : (l.map (elimMark g m L)).map (fun p => p.tokensWon)
      = l.map (fun p => p.tokensWon) := by
    rw [List.map_map]
    refine List.map_congr_left (fun r _ => ?_)
    simp only [Function.comp_apply, elimMark]
    split <;> rfl
  rw [this]

theorem endGameRankings_sorted (ps : List Participant) :
    List.Pairwise rankLE (endGameRankings ps) :=
  List.sorted_insertionSort rankLE (ps.map rankEntryOf)

/-- C7: at game completion (`endGame`) every participant whose token count
equals the game-wide minimum is marked eliminated — tied participants all
together — and any rankings list broadcast with GAME_END is pairwise
ordered by tokens won descending, then remaining time bank descending. -/
theorem endGame_eliminates_minimum_and_sorts (s : Store) (g : Nat) (gm : Game)
    (hg : s.getGame g = some gm) :
    (∀ q ∈ (endGame s g).1.getParticipantsByGame g,
        q.tokensWon = lowestTokensOf ((endGame s g).1.getParticipantsByGame g) →
        q.isEliminated = true)
    ∧ (∀ rk, Ev.gameEnd g rk ∈ (endGame s g).2 → List.Pairwise rankLE rk) := by
  unfold endGame
  rw [hg]
  dsimp only
  set s1 := s.updateGameStatus g GameStatus.completed with hs1
  set ps := s1.getParticipantsByGame g with hps
  set m := lowestTokensOf ps with hm
  set s2 := ps.foldl
    (fun acc p => if p.tokensWon = m then acc.eliminateParticipant g p.userId else acc) s1
    with hs2
  have h2parts : s2.participants = s1.participants.map (elimMark g m ps) := by
    rw [hs2]; exact foldElim_participants g m ps s1
  have h3parts : (broadcastToGame s2 g (Ev.gameEnd g (endGameRankings ps))).1.participants
      = s2.participants := broadcastToGame_participants s2 g _
  constructor
  · intro q hq hqmin
    have hgp : (broadcastToGame s2 g (Ev.gameEnd g (endGameRankings ps))).1.getParticipantsByGame g
        = ps.map (elimMark g m ps) := by
      rw [show (broadcastToGame s2 g (Ev.gameEnd g (endGameRankings ps))).1.getParticipantsByGame g
            = s2.getParticipantsByGame g from getParticipantsByGame_congr h3parts g]
      unfold Store.getParticipantsByGame
      rw [h2parts]
      refine filter_map_pred _ _ (fun a => ?_) s1.participants
      unfold elimMark
      split <;> rfl
    rw [hgp] at hq hqmin
    obtain ⟨r, hr, hrq⟩ := List.mem_map.mp hq
    have hrtok : q.tokensWon = r.tokensWon := by
      rw [← hrq]; unfold elimMark; split <;> rfl
    have hmin2 : lowestTokensOf (ps.map (elimMark g m ps)) = m := by
      rw [lowestTokens_map_elimMark]
    rw [hmin2] at hqmin
    have hrm : r.tokensWon = m := by rw [← hrtok, hqmin]
    have hrg : (r.gameId == g) = true := by
      have := List.mem_filter.mp (hps ▸ hr)
      exact this.2
    have hcond : (r.gameId == g
        && ps.any (fun p => decide (p.tokensWon = m) && p.userId == r.userId)) = true := by
      rw [hrg, Bool.true_and]
      exact List.any_eq_true.mpr ⟨r, hr, by rw [decide_eq_true hrm, beq_self_eq_true]; rfl⟩
    rw [← hrq]
    unfold elimMark
    rw [if_pos hcond]
  · intro rk hrk
    unfold broadcastToGame at hrk
    cases hroom : s2.room g with
    | none => rw [hroom] at hrk; simp at hrk
    | some l =>
        rw [hroom] at hrk
        dsimp only at hrk
        have : Ev.gameEnd g rk ∈
            (if 0 < roomOpenCount l then [Ev.gameEnd g (endGameRankings ps)] else [])
            ++ (if (Ev.gameEnd g (endGameRankings ps)).isStructural = true
                  ∧ 0 < roomOpenCount l then [Ev.gameState g] else []) := hrk
        rcases List.mem_append.mp this with hmem | hmem
        · split at hmem
          · rcases List.mem_singleton.mp hmem with heq
            have : rk = endGameRankings ps := by
              injection heq with h1 h2
            rw [this]
            exact endGameRankings_sorted ps
          · simp at hmem
        · split at hmem
          · rcases List.mem_singleton.mp hmem with heq
            cases heq
          · simp at hmem

def gameC7w : Game :=
  { id := 1, createdById := 10, status := GameStatus.inProgress,
    currentRound := 4, totalRounds := 3, startingTimeBank := 60, isPublic := true,
    hasBots := false, maxHoldTimeLastRound := 5000, roundWinnerId := none }

def storeC7w : Store :=
  { users := [10, 11, 12], games := [gameC7w],
    participants :=
      [{ id := 1, gameId := 1, userId := 10, isHost := true, isReady := true,
         timeBank := some 40, tokensWon := 2, isEliminated := false, isBot := false,
         hasBidThisRound := false, lastHoldTime := 0 },
       { id := 2, gameId := 1, userId := 11, isHost := false, isReady := true,
         timeBank := some 50, tokensWon := 0, isEliminated := false, isBot := false,
         hasBidThisRound := false, lastHoldTime := 0 },
       { id := 3, gameId := 1, userId := 12, isHost := false, isReady := true,
         timeBank := some 45, tokensWon := 0, isEliminated := false, isBot := false,
         hasBidThisRound := false, lastHoldTime := 0 }],
    rooms := [(1, [(10, true), (11, true), (12, true)])],
    participantIdCounter := 4 }

/-- Witness for C7 at a three-player game with two players tied at the
minimum token count. -/
theorem endGame_eliminates_minimum_and_sorts_witness :
    (∀ q ∈ (endGame storeC7w 1).1.getParticipantsByGame 1,
        q.tokensWon = lowestTokensOf ((endGame storeC7w 1).1.getParticipantsByGame 1) →
        q.isEliminated = true)
    ∧ (∀ rk, Ev.gameEnd 1 rk ∈ (endGame storeC7w 1).2 → List.Pairwise rankLE rk) :=
  endGame_eliminates_minimum_and_sorts storeC7w 1 gameC7w (by decide)

theorem getParticipant_key {s : Store} {x y : Nat} {p : Participant}
    (hp : s.getParticipant x y = some p) : p.gameId = x ∧ p.userId = y := by
  unfold Store.getParticipant at hp
  have := List.find?_some hp
  simp only [Bool.and_eq_true, beq_iff_eq] at this
  exact this

theorem getParticipant_mem {s : Store} {x y : Nat} {p : Participant}
    (hp : s.getParticipant x y = some p) : p ∈ s.participants :=
  List.mem_of_find?_eq_some hp

/-- A row transformation that preserves the participant key and the time
bank. -/
def keepsTB (χ : Participant → Participant) : Prop :=
  ∀ p, (χ p).gameId = p.gameId ∧ (χ p).userId = p.userId ∧ (χ p).timeBank = p.timeBank

theorem keepsTB_id : keepsTB id := fun _ => ⟨rfl, rfl, rfl⟩

theorem keepsTB_comp {χ₁ χ₂ : Participant → Participant}
    (h1 : keepsTB χ₁) (h2 : keepsTB χ₂) : keepsTB (χ₁ ∘ χ₂) := by
  intro p
  refine ⟨?_, ?_, ?_⟩
  · rw [Function.comp_apply, (h1 _).1, (h2 _).1]
  · rw [Function.comp_apply, (h1 _).2.1, (h2 _).2.1]
  · rw [Function.comp_apply, (h1 _).2.2, (h2 _).2.2]

/-- Existence of a pointwise description of one store's participants as a
key-and-time-bank-preserving image of another's. -/
def TBShape (s₁ s₂ : Store) : Prop :=
  ∃ χ, keepsTB χ ∧ s₂.participants = s₁.participants.map χ

theorem tbShape_refl (s : Store) : TBShape s s :=
  ⟨id, keepsTB_id, by simp⟩

theorem tbShape_trans {s₁ s₂ s₃ : Store} (h12 : TBShape s₁ s₂) (h23 : TBShape s₂ s₃) :
    TBShape s₁ s₃ := by
  obtain ⟨χ, hχ, he⟩ := h12
  obtain ⟨ψ, hψ, he2⟩ := h23
  exact ⟨ψ ∘ χ, keepsTB_comp hψ hχ, by rw [he2, he, List.map_map]⟩

theorem tbShape_of_participants_eq {s₁ s₂ : Store}
    (h : s₂.participants = s₁.participants) : TBShape s₁ s₂ :=
  ⟨id, keepsTB_id, by simp [h]⟩

theorem tbShape_updateParticipant (s : Store) (g u : Nat) (f : Participant → Participant)
    (hf : ∀ p, (f p).gameId = p.gameId ∧ (f p).userId = p.userId
      ∧ (f p).timeBank = p.timeBank) :
    TBShape s (s.updateParticipant g u f) := by
  refine ⟨fun p => if p.gameId == g && p.userId == u then f p else p, fun p => ?_, rfl⟩
  by_cases h : (p.gameId == g && p.userId == u) = true
  · simp only [if_pos h]; exact hf p
  · simp only [Bool.and_eq_true, beq_iff_eq] at h
    simp [if_neg h]

theorem tbShape_updateParticipantBidDetails (s : Store) (g u : Nat)
    (hasBid : Bool) (hold : Rat) :
    TBShape s (s.updateParticipantBidDetails g u hasBid hold) :=
  tbShape_updateParticipant s g u
    (fun p => { p with hasBidThisRound := hasBid, lastHoldTime := hold })
    (fun _ => ⟨rfl, rfl, rfl⟩)

theorem tbShape_updateParticipantTokens (s : Store) (g u t : Nat) :
    TBShape s (s.updateParticipantTokens g u t) :=
  tbShape_updateParticipant s g u
    (fun p => { p with tokensWon := t }) (fun _ => ⟨rfl, rfl, rfl⟩)

theorem tbShape_updateGameStatus (s : Store) (g : Nat) (st : GameStatus) :
    TBShape s (s.updateGameStatus g st) :=
  tbShape_of_participants_eq rfl

theorem tbShape_updateGameRoundResults (s : Store) (g : Nat) (w : Option Nat)
    (m : Rat) (r : Nat) :
    TBShape s (s.updateGameRoundResults g w m r) :=
  tbShape_of_participants_eq rfl

theorem tbOf_of_shape {s₁ s₂ : Store} (h : TBShape s₁ s₂) (x y : Nat) :
    tbOf s₂ x y = tbOf s₁ x y := by
  obtain ⟨χ, hχ, he⟩ := h
  unfold tbOf Store.getParticipant
  rw [he, find?_map_pred χ _ (fun a => by simp [(hχ a).1, (hχ a).2.1])]
  cases s₁.participants.find? (fun p => p.gameId == x && p.userId == y) with
  | none => rfl
  | some p => simp [(hχ p).2.2]

theorem tbShape_foldBidReset (g : Nat) (L : List Participant) (s : Store) :
    TBShape s (L.foldl (fun acc p => acc.updateParticipantBidDetails g p.id false 0) s) := by
  induction L generalizing s with
  | nil => exact tbShape_refl s
  | cons a L ih =>
      rw [List.foldl_cons]
      exact tbShape_trans (tbShape_updateParticipantBidDetails s g a.id false 0)
        (ih (s.updateParticipantBidDetails g a.id false 0))

theorem tbShape_broadcast (s : Store) (g : Nat) (ev : Ev) :
    TBShape s (broadcastToGame s g ev).1 :=
  tbShape_of_participants_eq (broadcastToGame_participants s g ev)

theorem tbShape_endGame (s : Store) (g : Nat) : TBShape s (endGame s g).1 := by
  unfold endGame
  cases hg : s.getGame g with
  | none => exact tbShape_refl s
  | some gm =>
      dsimp only
      refine tbShape_trans (tbShape_updateGameStatus s g GameStatus.completed) ?_
      refine @tbShape_trans _ _ _ ?_ (tbShape_broadcast _ g _)
      refine ⟨elimMark g (lowestTokensOf
          ((s.updateGameStatus g GameStatus.completed).getParticipantsByGame g))
          ((s.updateGameStatus g GameStatus.completed).getParticipantsByGame g),
        fun p => ?_, ?_⟩
      · unfold elimMark; split <;> exact ⟨rfl, rfl, rfl⟩
      · exact foldElim_participants g _ _ _

theorem TBShape.stepTokens {s₀ s : Store} (h : TBShape s₀ s) (g u t : Nat) :
    TBShape s₀ (s.updateParticipantTokens g u t) :=
  tbShape_trans h (tbShape_updateParticipantTokens s g u t)

theorem TBShape.stepGameRoundResults {s₀ s : Store} (h : TBShape s₀ s)
    (g : Nat) (w : Option Nat) (m : Rat) (r : Nat) :
    TBShape s₀ (s.updateGameRoundResults g w m r) :=
  tbShape_trans h (tbShape_updateGameRoundResults s g w m r)

theorem TBShape.stepFoldBidReset {s₀ s : Store} (h : TBShape s₀ s)
    (g : Nat) (L : List Participant) :
    TBShape s₀ (L.foldl (fun acc p => acc.updateParticipantBidDetails g p.id false 0) s) :=
  tbShape_trans h (tbShape_foldBidReset g L s)

theorem TBShape.stepBroadcast {s₀ s : Store} (h : TBShape s₀ s) (g : Nat) (ev : Ev) :
    TBShape s₀ (broadcastToGame s g ev).1 :=
  tbShape_trans h (tbShape_broadcast s g ev)

theorem TBShape.stepEndGame {s₀ s : Store} (h : TBShape s₀ s) (g : Nat) :
    TBShape s₀ (endGame s g).1 :=
  tbShape_trans h (tbShape_endGame s g)

theorem tbShape_endCurrentRound (s : Store) (g : Nat) :
    TBShape s (endCurrentRound s g).1 := by
  unfold endCurrentRound
  cases hg : s.getGame g with
  | none => exact tbShape_refl s
  | some game =>
      dsimp only
      split
      · exact tbShape_refl s
      · have h1 : TBShape s (match roundWinnerOf (s.getParticipantsByGame g) with
            | some w => s.updateParticipantTokens g w.id (w.tokensWon + 1)
            | none => s) := by
          cases roundWinnerOf (s.getParticipantsByGame g) with
          | none => exact tbShape_refl s
          | some w => exact tbShape_updateParticipantTokens s g w.id (w.tokensWon + 1)
        have h3 : TBShape s ((s.getParticipantsByGame g).foldl
            (fun acc p => acc.updateParticipantBidDetails g p.id false 0)
            ((match roundWinnerOf (s.getParticipantsByGame g) with
              | some w => s.updateParticipantTokens g w.id (w.tokensWon + 1)
              | none => s).updateGameRoundResults g
                (Option.map (fun w : Participant => w.id) (roundWinnerOf (s.getParticipantsByGame g)))
                (match roundWinnerOf (s.getParticipantsByGame g) with
                  | some w => w.lastHoldTime
                  | none => 0)
                (game.currentRound + 1))) :=
          (h1.stepGameRoundResults g _ _ _).stepFoldBidReset g _
        split
        · exact h3
        · split
          · exact (h3.stepBroadcast g _).stepEndGame g
          · exact h3.stepBroadcast g _

theorem tbOf_updateParticipant_ne (s : Store) (g u : Nat) (f : Participant → Participant)
    (x y : Nat) (hne : ¬(x = g ∧ y = u))
    (hf : ∀ p, (f p).gameId = p.gameId ∧ (f p).userId = p.userId) :
    tbOf (s.updateParticipant g u f) x y = tbOf s x y := by
  unfold tbOf
  rw [getParticipant_updateParticipant s g u x y f hf]
  cases hp : s.getParticipant x y with
  | none => rfl
  | some p =>
      obtain ⟨h1, h2⟩ := getParticipant_key hp
      have hcond : (p.gameId == g && p.userId == u) = false := by
        rw [h1, h2]
        by_cases hxg : x = g
        · by_cases hyu : y = u
          · exact absurd ⟨hxg, hyu⟩ hne
          · simp [hyu]
        · simp [hxg]
      have hprop : ¬(p.gameId = g ∧ p.userId = u) := fun hpq =>
        hne ⟨h1.symm.trans hpq.1, h2.symm.trans hpq.2⟩
      simp [hprop]

theorem tbOf_updateParticipantTimeBank_self (s : Store) (g u : Nat) (v : Rat) :
    tbOf (s.updateParticipantTimeBank g u v) g u
      = (tbOf s g u).map (fun _ => some v) := by
  unfold tbOf Store.updateParticipantTimeBank
  rw [getParticipant_updateParticipant s g u g u
    (fun p => { p with timeBank := some v }) (fun _ => ⟨rfl, rfl⟩)]
  cases hp : s.getParticipant g u with
  | none => rfl
  | some p =>
      obtain ⟨h1, h2⟩ := getParticipant_key hp
      simp [h1, h2]

theorem hbAccepted (s : Store) (g u : Nat) (h : Rat) (gm : Game) (p : Participant)
    (hg : s.getGame g = some gm) (hst : gm.status = GameStatus.inProgress)
    (hp : s.getParticipant g u = some p) (he : p.isEliminated = false)
    (hb : p.hasBidThisRound = false) :
    handleBuzzerRelease s g u h =
      (let s1 := match p.timeBank with
        | some tb => s.updateParticipantTimeBank g u (mathMax 0 (ratSub tb (msToSec h)))
        | none => s
      let s2 := s1.updateParticipantBidDetails g u true h
      let br := broadcastToGame s2 g (Ev.buzzerRelease g u h)
      let fresh := br.1.getParticipantsByGame g
      let active := fresh.filter (fun q => !q.isEliminated)
      let bidders := fresh.filter (fun q => q.hasBidThisRound)
      let allBid := decide (0 < active.length)
        && active.all (fun q => bidders.any (fun b => b.userId == q.userId))
      if allBid = true then
        let ec := endCurrentRound br.1 g
        (ec.1, br.2 ++ ec.2, true)
      else (br.1, br.2, false)) := by
  unfold handleBuzzerRelease
  rw [hg]
  simp [hst, hp, he, hb]

/-- C4 (amended): `handleBuzzerRelease` touches no time bank other than the
sender's; a valid release with a non-null bank `tb` and hold duration `h`
sets the sender's bank to exactly `max 0 (tb − h/1000)`; and for
non-negative hold durations applied to a non-negative bank that value is
non-negative and no larger than before.  (The unamended claim fails only
because the dispatcher accepts negative `holdTime` numbers, which raise the
bank.) -/
theorem buzzerRelease_timeBank_update (s : Store) (g u : Nat) (h : Rat) :
    (∀ x y, ¬(x = g ∧ y = u) →
        tbOf (handleBuzzerRelease s g u h).1 x y = tbOf s x y)
    ∧ (∀ gm p tb, s.getGame g = some gm → gm.status = GameStatus.inProgress →
        s.getParticipant g u = some p → p.isEliminated = false →
        p.hasBidThisRound = false → p.timeBank = some tb →
        tbOf (handleBuzzerRelease s g u h).1 g u
          = some (some (max 0 (tb - h / 1000))))
    ∧ (∀ tb : Rat, 0 ≤ h → 0 ≤ tb →
        0 ≤ max 0 (tb - h / 1000) ∧ max 0 (tb - h / 1000) ≤ tb) := by
  refine ⟨?_, ?_, ?_⟩
  · intro x y hxy
    cases hgo : s.getGame g with
    | none => rw [hbGuardNoop s g u h (Or.inl hgo)]
    | some gm =>
        by_cases hst : gm.status = GameStatus.inProgress
        · cases hpo : s.getParticipant g u with
          | none => rw [hbGuardNoop s g u h (Or.inr (Or.inr (Or.inl hpo)))]
          | some p =>
              by_cases he : p.isEliminated = true
              · rw [hbGuardNoop s g u h (Or.inr (Or.inr (Or.inr ⟨p, hpo, he⟩)))]
              · rw [Bool.not_eq_true] at he
                by_cases hb : p.hasBidThisRound = true
                · rw [hbDupNoop s g u h gm p hgo hst hpo he hb]
                · rw [Bool.not_eq_true] at hb
                  rw [hbAccepted s g u h gm p hgo hst hpo he hb]
                  dsimp only
                  split
                  · rw [tbOf_of_shape (tbShape_endCurrentRound _ g) x y,
                      tbOf_of_shape (tbShape_broadcast _ g _) x y,
                      tbOf_of_shape (tbShape_updateParticipantBidDetails _ g u true h) x y]
                    cases htb : p.timeBank with
                    | none => rfl
                    | some tb =>
                        exact tbOf_updateParticipant_ne s g u _ x y hxy
                          (fun q => ⟨rfl, rfl⟩)
                  · rw [tbOf_of_shape (tbShape_broadcast _ g _) x y,
                      tbOf_of_shape (tbShape_updateParticipantBidDetails _ g u true h) x y]
                    cases htb : p.timeBank with
                    | none => rfl
                    | some tb =>
                        exact tbOf_updateParticipant_ne s g u _ x y hxy
                          (fun q => ⟨rfl, rfl⟩)
        · rw [hbGuardNoop s g u h (Or.inr (Or.inl ⟨gm, hgo, hst⟩))]
  · intro gm p tb hg hst hp he hb htb
    rw [hbAccepted s g u h gm p hg hst hp he hb]
    have hval : tbOf (((match p.timeBank with
        | some tb => s.updateParticipantTimeBank g u (mathMax 0 (ratSub tb (msToSec h)))
        | none => s).updateParticipantBidDetails g u true h)) g u
        = some (some (mathMax 0 (ratSub tb (msToSec h)))) := by
      rw [tbOf_of_shape (tbShape_updateParticipantBidDetails _ g u true h) g u, htb]
      rw [tbOf_updateParticipantTimeBank_self s g u _]
      unfold tbOf
      rw [hp]
      rfl
    have hrw : mathMax 0 (ratSub tb (msToSec h)) = max 0 (tb - h / 1000) := by
      rw [mathMax_eq_max, ratSub_eq, msToSec_eq]
    dsimp only
    split
    · rw [tbOf_of_shape (tbShape_endCurrentRound _ g) g u,
        tbOf_of_shape (tbShape_broadcast _ g _) g u, htb] at *
      rw [hval, hrw]
    · rw [tbOf_of_shape (tbShape_broadcast _ g _) g u, htb] at *
      rw [hval, hrw]
  · intro tb hh htb
    constructor
    · exact le_max_left 0 _
    · refine max_le htb (sub_le_self tb ?_)
      positivity

def partC4w : Participant :=
  { id := 1, gameId := 1, userId := 10, isHost := true, isReady := true,
    timeBank := some 60, tokensWon := 0, isEliminated := false, isBot := false,
    hasBidThisRound := false, lastHoldTime := 0 }

def storeC4w : Store :=
  { users := [10, 11], games := [gameC2x],
    participants :=
      [partC4w,
       { id := 2, gameId := 1, userId := 11, isHost := false, isReady := true,
         timeBank := some 60, tokensWon := 0, isEliminated := false, isBot := false,
         hasBidThisRound := false, lastHoldTime := 0 }],
    rooms := [], participantIdCounter := 3 }

/-- Witness for the amended C4: a valid 2000 ms release by user 10 sets
their bank to `max 0 (60 − 2)` and leaves user 11's bank untouched. -/
theorem buzzerRelease_timeBank_update_witness :
    tbOf (handleBuzzerRelease storeC4w 1 10 2000).1 1 10
      = some (some (max 0 (60 - 2000 / 1000)))
    ∧ tbOf (handleBuzzerRelease storeC4w 1 10 2000).1 1 11 = tbOf storeC4w 1 11
    ∧ (0 ≤ max 0 ((60 : Rat) - 2000 / 1000) ∧ max 0 ((60 : Rat) - 2000 / 1000) ≤ 60) :=
  ⟨(buzzerRelease_timeBank_update storeC4w 1 10 2000).2.1 gameC2x partC4w 60
      (by decide) (by decide) (by decide) (by decide) (by decide) (by decide),
   (buzzerRelease_timeBank_update storeC4w 1 10 2000).1 1 11 (by decide),
   (buzzerRelease_timeBank_update storeC4w 1 10 2000).2.2 60 (by norm_num) (by norm_num)⟩

theorem getGame_key {s : Store} {x : Nat} {gm : Game}
    (h : s.getGame x = some gm) : gm.id = x := by
  unfold Store.getGame at h
  have := List.find?_some h
  simpa using this

theorem room_mem {s : Store} {g : Nat} {l : RoomMembers}
    (h : s.room g = some l) : ∃ e ∈ s.rooms, e.1 = g ∧ e.2 = l := by
  unfold Store.room at h
  cases hf : s.rooms.find? (fun r => r.1 == g) with
  | none => rw [hf] at h; cases h
  | some e =>
      rw [hf] at h
      refine ⟨e, List.mem_of_find?_eq_some hf, ?_, ?_⟩
      · have := List.find?_some hf
        simpa using this
      · simpa using h

theorem gameStatus_beq_iff (a b : GameStatus) : (a == b) = true ↔ a = b := by
  cases a <;> cases b <;> decide

theorem startedFlag_spec (t : Store) (g : Nat) :
    ((match t.getGame g with
      | some gm =>
          gm.status == GameStatus.waiting
            && decide (2 ≤ (t.getParticipantsByGame g).length)
            && (t.getParticipantsByGame g).all (fun p => p.isReady)
      | none => false) = true)
    ↔ ∃ gm, t.getGame g = some gm ∧ gm.status = GameStatus.waiting
        ∧ 2 ≤ (t.getParticipantsByGame g).length
        ∧ ∀ p ∈ t.getParticipantsByGame g, p.isReady = true := by
  cases hg : t.getGame g with
  | none => simp
  | some gm => simp [List.all_eq_true, gameStatus_beq_iff, and_assoc]

/-- C3 (amended): a PLAYER_READY message starts the game countdown if and
only if the game exists in `waiting` status with at least 2 participants —
counting every participant, bots and eliminated players included — and,
once the sender's ready flag is recorded, every participant of the game is
ready.  (The unamended claim restricts the count to non-bot, non-eliminated
participants; the source counts all of them.) -/
theorem playerReady_start_condition (s : Store) (g u : Nat) (r : Bool)
    (hwf : s.WF) :
    (handlePlayerReady s g u r).2.2 = true
      ↔ ∃ gm, s.getGame g = some gm ∧ gm.status = GameStatus.waiting
          ∧ 2 ≤ (s.getParticipantsByGame g).length
          ∧ ∀ p ∈ (s.updateParticipantReadyStatus g u r).getParticipantsByGame g,
              p.isReady = true := by
  unfold handlePlayerReady
  dsimp only
  rw [startedFlag_spec]
  have hgame : (s.updateParticipantReadyStatus g u r).getGame g = s.getGame g := rfl
  have hlen : ((s.updateParticipantReadyStatus g u r).getParticipantsByGame g).length
      = (s.getParticipantsByGame g).length := by
    unfold Store.updateParticipantReadyStatus
    rw [getParticipantsByGame_updateParticipant s g u g
      (fun p => { p with isReady := r }) (fun p => rfl)]
    exact List.length_map _ _
  have hbr : (broadcastToGame (s.updateParticipantReadyStatus g u r) g
        (Ev.playerReady g u r)).1 = s.updateParticipantReadyStatus g u r
      ∨ ((s.getParticipantsByGame g).length < 2
          ∧ (broadcastToGame (s.updateParticipantReadyStatus g u r) g
              (Ev.playerReady g u r)).1
            = ((s.updateParticipantReadyStatus g u r).updateGameStatus g
                GameStatus.completed).deleteRoom g) := by
    unfold broadcastToGame
    cases hroom : (s.updateParticipantReadyStatus g u r).room g with
    | none => exact Or.inl rfl
    | some l =>
        dsimp only
        by_cases hopen : roomOpenCount l = 0
        · rw [if_pos ⟨rfl, hopen⟩]
          unfold handleEmptyGame
          cases hgame2 : (s.updateParticipantReadyStatus g u r).getGame g with
          | none => exact Or.inl rfl
          | some gm =>
              dsimp only
              have hsz : (match (s.updateParticipantReadyStatus g u r).room g with
                  | none => false
                  | some l => l.length == 0) = false := by
                rw [hroom]
                obtain ⟨e, hmem, he1, he2⟩ := room_mem hroom
                have : l ≠ [] := he2 ▸ hwf.roomsNE e hmem
                simpa [List.length_eq_zero] using this
              rw [hsz]
              by_cases hlow : ((s.updateParticipantReadyStatus g u r).getParticipantsByGame g).length < 2
              · rw [if_pos (Or.inl hlow)]
                exact Or.inr ⟨by rwa [hlen] at hlow, rfl⟩
              · have hneg : ¬(((s.updateParticipantReadyStatus g u r).getParticipantsByGame g).length < 2
                    ∨ (gm.status = GameStatus.waiting ∧ false = true)) := by
                  rintro (hc | ⟨hc1, hc2⟩)
                  · exact hlow hc
                  · cases hc2
                rw [if_neg hneg]
                exact Or.inl rfl
        · rw [if_neg (fun hc => hopen hc.2)]
          exact Or.inl rfl
  rcases hbr with hbr | ⟨hlow, hbr⟩
  · rw [hbr, hgame, hlen]
  · rw [hbr]
    constructor
    · rintro ⟨gm, hgm, hw, hge2, hready⟩
      exfalso
      have hdg : (((s.updateParticipantReadyStatus g u r).updateGameStatus g
            GameStatus.completed).deleteRoom g).getGame g
          = ((s.updateParticipantReadyStatus g u r).getGame g).map
              (fun gm0 => if gm0.id == g then { gm0 with status := GameStatus.completed }
                else gm0) := by
        exact getGame_updateGame _ g g _ (fun gm0 => rfl)
      rw [hdg] at hgm
      cases hg0 : (s.updateParticipantReadyStatus g u r).getGame g with
      | none => rw [hg0] at hgm; cases hgm
      | some gm0 =>
          rw [hg0] at hgm
          have hid : gm0.id = g := getGame_key (hgame ▸ hg0)
          simp only [Option.map_some'] at hgm
          rw [if_pos (by simpa using hid)] at hgm
          have : gm.status = GameStatus.completed := by
            cases hgm; rfl
          rw [this] at hw
          cases hw
    · rintro ⟨gm, hgm, hw, hge2, hready⟩
      exact absurd hge2 (Nat.not_le_of_lt hlow)

theorem currentRoundOf_updateGame (s : Store) (g x : Nat) (f : Game → Game)
    (hid : ∀ gm, (f gm).id = gm.id)
    (hcr : ∀ gm, (f gm).currentRound = gm.currentRound) :
    currentRoundOf (s.updateGame g f) x = currentRoundOf s x := by
  unfold currentRoundOf
  rw [getGame_updateGame s g x f hid]
  cases s.getGame x with
  | none => rfl
  | some gm =>
      simp only [Option.map_some']
      split <;> simp [hcr]

theorem currentRoundOf_games_congr {s₁ s₂ : Store} (h : s₁.games = s₂.games) (x : Nat) :
    currentRoundOf s₁ x = currentRoundOf s₂ x := by
  unfold currentRoundOf; rw [getGame_congr h]

theorem currentRoundOf_handleEmptyGame (s : Store) (g x : Nat) :
    currentRoundOf (handleEmptyGame s g) x = currentRoundOf s x := by
  unfold handleEmptyGame
  cases hg : s.getGame g with
  | none => rfl
  | some gm =>
      dsimp only
      split
      · rw [currentRoundOf_games_congr
          (deleteRoom_games (s.updateGameStatus g GameStatus.completed) g) x]
        exact currentRoundOf_updateGame s g x _ (fun _ => rfl) (fun _ => rfl)
      · rfl

theorem currentRoundOf_broadcast (s : Store) (g : Nat) (ev : Ev) (x : Nat) :
    currentRoundOf (broadcastToGame s g ev).1 x = currentRoundOf s x := by
  unfold broadcastToGame
  cases s.room g with
  | none => rfl
  | some l =>
      dsimp only
      split
      · exact currentRoundOf_handleEmptyGame s g x
      · rfl

theorem foldElim_games (g : Nat) (m : Nat) (L : List Participant) (s : Store) :
    (L.foldl (fun acc p =>
        if p.tokensWon = m then acc.eliminateParticipant g p.userId else acc) s).games
      = s.games := by
  induction L generalizing s with
  | nil => rfl
  | cons a L ih =>
      rw [List.foldl_cons]
      split
      · rw [ih]; rfl
      · rw [ih]

theorem currentRoundOf_endGame (s : Store) (g x : Nat) :
    currentRoundOf (endGame s g).1 x = currentRoundOf s x := by
  unfold endGame
  cases hg : s.getGame g with
  | none => rfl
  | some gm =>
      dsimp only
      rw [currentRoundOf_broadcast _ g _ x,
        currentRoundOf_games_congr (foldElim_games g _ _ _) x]
      exact currentRoundOf_updateGame s g x _ (fun _ => rfl) (fun _ => rfl)

theorem foldBidReset_games (g : Nat) (L : List Participant) (s : Store) :
    (L.foldl (fun acc p => acc.updateParticipantBidDetails g p.id false 0) s).games
      = s.games := by
  induction L generalizing s with
  | nil => rfl
  | cons a L ih =>
      rw [List.foldl_cons, ih]; rfl

theorem handleEmptyGame_id_of_big (s : Store) (g : Nat)
    (hcnt : 2 ≤ (s.getParticipantsByGame g).length)
    (hside : ∀ gm, s.getGame g = some gm → gm.status ≠ GameStatus.waiting) :
    handleEmptyGame s g = s := by
  unfold handleEmptyGame
  cases hg : s.getGame g with
  | none => rfl
  | some gm =>
      dsimp only
      rw [if_neg]
      rintro (hc | ⟨hc1, _⟩)
      · exact absurd hc (Nat.not_lt.mpr hcnt)
      · exact hside gm hg hc1

theorem broadcast_fst_id_of_big (s : Store) (g : Nat) (ev : Ev)
    (hcnt : 2 ≤ (s.getParticipantsByGame g).length)
    (hside : ∀ gm, s.getGame g = some gm → gm.status ≠ GameStatus.waiting) :
    (broadcastToGame s g ev).1 = s := by
  unfold broadcastToGame
  cases s.room g with
  | none => rfl
  | some l =>
      dsimp only
      split
      · exact handleEmptyGame_id_of_big s g hcnt hside
      · rfl

theorem parts_unique {s : Store} (hwf : s.WF) {g : Nat} {a b : Participant}
    (ha : a ∈ s.getParticipantsByGame g) (hb : b ∈ s.getParticipantsByGame g)
    (hu : a.userId = b.userId) : a = b := by
  have hsub : (s.getParticipantsByGame g).Sublist s.participants :=
    List.filter_sublist s.participants
  have hpw : (s.getParticipantsByGame g).Pairwise
      (fun x y => x.gameId ≠ y.gameId ∨ x.userId ≠ y.userId) :=
    List.Pairwise.sublist hsub hwf.partsU
  have hga : a.gameId = g := by
    have := (List.mem_filter.mp ha).2; simpa using this
  have hgb : b.gameId = g := by
    have := (List.mem_filter.mp hb).2; simpa using this
  by_contra hne
  have hsymm : Symmetric (fun x y : Participant =>
      x.gameId ≠ y.gameId ∨ x.userId ≠ y.userId) :=
    fun x y hxy => hxy.imp Ne.symm Ne.symm
  have := List.Pairwise.forall hsymm hpw ha hb hne
  rcases this with hc | hc
  · exact hc (hga.trans hgb.symm)
  · exact hc hu

theorem sender_mem_parts {s : Store} {g u : Nat} {p : Participant}
    (hp : s.getParticipant g u = some p) :
    p ∈ s.getParticipantsByGame g ∧ p.gameId = g ∧ p.userId = u := by
  obtain ⟨h1, h2⟩ := getParticipant_key hp
  refine ⟨?_, h1, h2⟩
  exact List.mem_filter.mpr ⟨getParticipant_mem hp, by simp [h1]⟩

theorem allBid_spec (s : Store) (g u : Nat) (h : Rat) (p : Participant)
    (hwf : s.WF) (hp : s.getParticipant g u = some p) (he : p.isEliminated = false)
    (fresh : List Participant)
    (hfr : fresh = ((match p.timeBank with
        | some tb => s.updateParticipantTimeBank g u (mathMax 0 (ratSub tb (msToSec h)))
        | none => s).updateParticipantBidDetails g u true h).getParticipantsByGame g) :
    (decide (0 < (fresh.filter (fun q => !q.isEliminated)).length)
      && (fresh.filter (fun q => !q.isEliminated)).all
          (fun q => (fresh.filter (fun q2 => q2.hasBidThisRound)).any
            (fun b => b.userId == q.userId))) = true
    ↔ (∀ q ∈ s.getParticipantsByGame g, q.isEliminated = false →
        (q.hasBidThisRound = true ∨ q.userId = u)) := by
  obtain ⟨hpmem, hpg, hpu⟩ := sender_mem_parts hp
  obtain ⟨ψ, hψkey, hψelim, hψbid, hfr2⟩ :
      ∃ ψ : Participant → Participant,
        (∀ q, (ψ q).gameId = q.gameId ∧ (ψ q).userId = q.userId)
        ∧ (∀ q, (ψ q).isEliminated = q.isEliminated)
        ∧ (∀ q, (ψ q).hasBidThisRound
            = (q.hasBidThisRound || (q.gameId == g && q.userId == u)))
        ∧ fresh = (s.getParticipantsByGame g).map ψ := by
    cases htb : p.timeBank with
    | none =>
        refine ⟨fun q => if q.gameId == g && q.userId == u
            then { q with hasBidThisRound := true, lastHoldTime := h } else q,
          fun q => ?_, fun q => ?_, fun q => ?_, ?_⟩
        · dsimp only
          by_cases hk : (q.gameId == g && q.userId == u) = true
          · rw [if_pos hk]; exact ⟨rfl, rfl⟩
          · rw [if_neg hk]; exact ⟨rfl, rfl⟩
        · dsimp only
          by_cases hk : (q.gameId == g && q.userId == u) = true
          · rw [if_pos hk]
          · rw [if_neg hk]
        · dsimp only
          by_cases hk : (q.gameId == g && q.userId == u) = true
          · rw [if_pos hk, hk, Bool.or_true]
          · rw [if_neg hk, Bool.eq_false_iff.mpr hk, Bool.or_false]
        · rw [hfr, htb]
          exact getParticipantsByGame_updateParticipant s g u g _ (fun q => rfl)
    | some tb =>
        refine ⟨(fun q => if q.gameId == g && q.userId == u
              then { q with hasBidThisRound := true, lastHoldTime := h } else q)
            ∘ (fun q => if q.gameId == g && q.userId == u
              then { q with timeBank := some (mathMax 0 (ratSub tb (msToSec h))) } else q),
          fun q => ?_, fun q => ?_, fun q => ?_, ?_⟩
        · dsimp only [Function.comp_apply]
          by_cases hk : (q.gameId == g && q.userId == u) = true
          · rw [if_pos hk, if_pos (by simpa using hk)]; exact ⟨rfl, rfl⟩
          · rw [if_neg hk, if_neg hk]; exact ⟨rfl, rfl⟩
        · dsimp only [Function.comp_apply]
          by_cases hk : (q.gameId == g && q.userId == u) = true
          · rw [if_pos hk, if_pos (by simpa using hk)]
          · rw [if_neg hk, if_neg hk]
        · dsimp only [Function.comp_apply]
          by_cases hk : (q.gameId == g && q.userId == u) = true
          · rw [if_pos hk, if_pos (by simpa using hk), hk, Bool.or_true]
          · rw [if_neg hk, if_neg hk, Bool.eq_false_iff.mpr hk, Bool.or_false]
        · rw [hfr, htb]
          dsimp only
          unfold Store.updateParticipantBidDetails Store.updateParticipantTimeBank
          rw [getParticipantsByGame_updateParticipant _ g u g
              (fun p => { p with hasBidThisRound := true, lastHoldTime := h })
              (fun q => rfl),
            getParticipantsByGame_updateParticipant s g u g
              (fun p => { p with
                timeBank := some (mathMax 0 (ratSub tb (msToSec h))) })
              (fun q => rfl),
            List.map_map]
  have hactive : fresh.filter (fun q => !q.isEliminated)
      = ((s.getParticipantsByGame g).filter (fun q => !q.isEliminated)).map ψ := by
    rw [hfr2]
    exact filter_map_pred ψ _ (fun a => by rw [hψelim a]) _
  have hpfilter : p ∈ (s.getParticipantsByGame g).filter (fun q => !q.isEliminated) :=
    List.mem_filter.mpr ⟨hpmem, by rw [he]; rfl⟩
  have hlenpos : decide (0 < (fresh.filter (fun q => !q.isEliminated)).length) = true := by
    rw [hactive, decide_eq_true_eq, List.length_map]
    exact List.length_pos.mpr (List.ne_nil_of_mem hpfilter)
  rw [Bool.and_eq_true, hlenpos]
  simp only [true_and]
  rw [List.all_eq_true]
  constructor
  · intro hall q hq hqel
    have hmm : ψ q ∈ fresh.filter (fun q2 => !q2.isEliminated) := by
      rw [hactive]
      exact List.mem_map_of_mem ψ (List.mem_filter.mpr ⟨hq, by rw [hqel]; rfl⟩)
    have := hall (ψ q) hmm
    rw [List.any_eq_true] at this
    obtain ⟨b, hbmem, hbuid⟩ := this
    obtain ⟨hbfresh, hbbid⟩ := List.mem_filter.mp hbmem
    rw [hfr2] at hbfresh
    obtain ⟨b0, hb0mem, rfl⟩ := List.mem_map.mp hbfresh
    have huid : b0.userId = q.userId := by
      have := (beq_iff_eq ..).mp hbuid
      rw [(hψkey b0).2, (hψkey q).2] at this
      exact this
    have hbq : b0 = q := parts_unique hwf hb0mem hq huid
    rw [hψbid b0, Bool.or_eq_true] at hbbid
    rcases hbbid with hbid | hkey
    · exact Or.inl (hbq ▸ hbid)
    · rw [Bool.and_eq_true, beq_iff_eq, beq_iff_eq] at hkey
      exact Or.inr (hbq ▸ hkey.2)
  · intro hall q' hq'
    rw [hactive] at hq'
    obtain ⟨q, hqf, rfl⟩ := List.mem_map.mp hq'
    obtain ⟨hqmem, hqel⟩ := List.mem_filter.mp hqf
    have hqel2 : q.isEliminated = false := by
      cases hval : q.isEliminated
      · rfl
      · rw [hval] at hqel; cases hqel
    rw [List.any_eq_true]
    rcases hall q hqmem hqel2 with hbid | huid
    · refine ⟨ψ q, List.mem_filter.mpr ⟨hfr2 ▸ List.mem_map_of_mem ψ hqmem, ?_⟩, ?_⟩
      · rw [hψbid q, hbid, Bool.true_or]
      · simp
    · refine ⟨ψ p, List.mem_filter.mpr ⟨hfr2 ▸ List.mem_map_of_mem ψ hpmem, ?_⟩, ?_⟩
      · rw [hψbid p]
        have : (p.gameId == g && p.userId == u) = true := by
          rw [Bool.and_eq_true, beq_iff_eq, beq_iff_eq]; exact ⟨hpg, hpu⟩
        rw [this, Bool.or_true]
      · rw [beq_iff_eq, (hψkey p).2, (hψkey q).2, hpu, huid]

theorem currentRoundOf_endCurrentRound_inProgress (s : Store) (g : Nat) (gm : Game)
    (hg : s.getGame g = some gm) (hst : gm.status = GameStatus.inProgress) :
    currentRoundOf (endCurrentRound s g).1 g = some (gm.currentRound + 1) := by
  have hid : gm.id = g := getGame_key hg
  unfold endCurrentRound
  rw [hg]
  dsimp only
  rw [if_neg (by simp [hst])]
  have hgames : (match roundWinnerOf (s.getParticipantsByGame g) with
      | some w => s.updateParticipantTokens g w.id (w.tokensWon + 1)
      | none => s).games = s.games := by
    cases roundWinnerOf (s.getParticipantsByGame g) <;> rfl
  split
  · rename_i hG2
    exfalso
    rw [getGame_congr (foldBidReset_games g _ _) g] at hG2
    unfold Store.updateGameRoundResults at hG2
    rw [getGame_updateGame _ g g
        (fun gm0 => { gm0 with
        roundWinnerId := Option.map (fun w => w.id) (roundWinnerOf (s.getParticipantsByGame g)),
        maxHoldTimeLastRound := match roundWinnerOf (s.getParticipantsByGame g) with
          | some w => w.lastHoldTime
          | none => 0,
        currentRound := gm.currentRound + 1 }) (fun x => rfl),
      getGame_congr hgames g, hg] at hG2
    simp at hG2
  · rename_i game2 hG2
    have hG3 := hG2
    rw [getGame_congr (foldBidReset_games g _ _) g] at hG3
    unfold Store.updateGameRoundResults at hG3
    rw [getGame_updateGame _ g g
        (fun gm0 => { gm0 with
        roundWinnerId := Option.map (fun w => w.id) (roundWinnerOf (s.getParticipantsByGame g)),
        maxHoldTimeLastRound := match roundWinnerOf (s.getParticipantsByGame g) with
          | some w => w.lastHoldTime
          | none => 0,
        currentRound := gm.currentRound + 1 }) (fun x => rfl),
      getGame_congr hgames g, hg] at hG3
    simp only [Option.map_some'] at hG3
    rw [if_pos (by simpa using hid)] at hG3
    have hcr2 : game2.currentRound = gm.currentRound + 1 := by
      cases hG3; rfl
    split
    · dsimp only
      rw [currentRoundOf_endGame _ g, currentRoundOf_broadcast _ g _ g]
      unfold currentRoundOf
      rw [hG2, Option.map_some', hcr2]
    · dsimp only
      rw [currentRoundOf_broadcast _ g _ g]
      unfold currentRoundOf
      rw [hG2, Option.map_some', hcr2]

theorem parts_len_updateParticipant (s : Store) (g u x : Nat)
    (f : Participant → Participant) (hf : ∀ p, (f p).gameId = p.gameId) :
    ((s.updateParticipant g u f).getParticipantsByGame x).length
      = (s.getParticipantsByGame x).length := by
  rw [getParticipantsByGame_updateParticipant s g u x f hf]
  exact List.length_map _ _

theorem parts_len_bidDetails (s : Store) (g u : Nat) (b : Bool) (hold : Rat) (x : Nat) :
    ((s.updateParticipantBidDetails g u b hold).getParticipantsByGame x).length
      = (s.getParticipantsByGame x).length :=
  parts_len_updateParticipant s g u x
    (fun p => { p with hasBidThisRound := b, lastHoldTime := hold }) (fun p => rfl)

theorem parts_len_timeBank (s : Store) (g u : Nat) (v : Rat) (x : Nat) :
    ((s.updateParticipantTimeBank g u v).getParticipantsByGame x).length
      = (s.getParticipantsByGame x).length :=
  parts_len_updateParticipant s g u x
    (fun p => { p with timeBank := some v }) (fun p => rfl)

/-- C2 (amended): for an in-progress game with at least two participants, a
BUZZER_RELEASE invokes round resolution (`endCurrentRound`) if and only if
the game is in progress, the sender is a non-eliminated participant who has
not yet bid this round, and after recording the bid every non-eliminated
participant of the game has bid.  When resolution is invoked
`currentRound` advances by exactly one and otherwise it is unchanged, so
successive resolutions carry strictly increasing round numbers and the same
round number can never be resolved twice.  When every participant of the
game is eliminated, the release is instead dropped outright — store
unchanged, nothing sent, no resolution — so the round does not resolve
(against the unamended claim, which expects a winnerless resolution and a
round advance). -/
theorem buzzerRelease_resolution_condition (s : Store) (g u : Nat) (h : Rat)
    (hwf : s.WF) (hcnt : 2 ≤ (s.getParticipantsByGame g).length) :
    ((handleBuzzerRelease s g u h).2.2 = true
      ↔ (∃ gm, s.getGame g = some gm ∧ gm.status = GameStatus.inProgress)
        ∧ (∃ p, s.getParticipant g u = some p ∧ p.isEliminated = false
            ∧ p.hasBidThisRound = false)
        ∧ (∀ q ∈ s.getParticipantsByGame g, q.isEliminated = false →
            (q.hasBidThisRound = true ∨ q.userId = u)))
    ∧ ((handleBuzzerRelease s g u h).2.2 = true →
        currentRoundOf (handleBuzzerRelease s g u h).1 g
          = (currentRoundOf s g).map (fun n => n + 1))
    ∧ ((handleBuzzerRelease s g u h).2.2 = false →
        currentRoundOf (handleBuzzerRelease s g u h).1 g = currentRoundOf s g)
    ∧ ((∀ q ∈ s.getParticipantsByGame g, q.isEliminated = true) →
        handleBuzzerRelease s g u h = (s, [], false)) := by
  have hD : (∀ q ∈ s.getParticipantsByGame g, q.isEliminated = true) →
      handleBuzzerRelease s g u h = (s, [], false) := by
    intro hall
    cases hpo : s.getParticipant g u with
    | none => exact hbGuardNoop s g u h (Or.inr (Or.inr (Or.inl hpo)))
    | some p2 =>
        obtain ⟨hmem, _, _⟩ := sender_mem_parts hpo
        exact hbGuardNoop s g u h (Or.inr (Or.inr (Or.inr ⟨p2, hpo, hall p2 hmem⟩)))
  have hMain : ((handleBuzzerRelease s g u h).2.2 = true
      ↔ (∃ gm, s.getGame g = some gm ∧ gm.status = GameStatus.inProgress)
        ∧ (∃ p, s.getParticipant g u = some p ∧ p.isEliminated = false
            ∧ p.hasBidThisRound = false)
        ∧ (∀ q ∈ s.getParticipantsByGame g, q.isEliminated = false →
            (q.hasBidThisRound = true ∨ q.userId = u)))
      ∧ ((handleBuzzerRelease s g u h).2.2 = true →
          currentRoundOf (handleBuzzerRelease s g u h).1 g
            = (currentRoundOf s g).map (fun n => n + 1))
      ∧ ((handleBuzzerRelease s g u h).2.2 = false →
          currentRoundOf (handleBuzzerRelease s g u h).1 g = currentRoundOf s g) := by
    cases hgo : s.getGame g with
    | none =>
        rw [hbGuardNoop s g u h (Or.inl hgo)]
        refine ⟨⟨fun hx => Bool.noConfusion hx, ?_⟩, fun hx => Bool.noConfusion hx,
          fun _ => rfl⟩
        rintro ⟨⟨gm, e, _⟩, _, _⟩
        exact Option.noConfusion e
    | some gm =>
        by_cases hst : gm.status = GameStatus.inProgress
        · cases hpo : s.getParticipant g u with
          | none =>
              rw [hbGuardNoop s g u h (Or.inr (Or.inr (Or.inl hpo)))]
              refine ⟨⟨fun hx => Bool.noConfusion hx, ?_⟩, fun hx => Bool.noConfusion hx,
                fun _ => rfl⟩
              rintro ⟨_, ⟨p, e, _, _⟩, _⟩
              exact Option.noConfusion e
          | some p =>
              by_cases he : p.isEliminated = true
              · rw [hbGuardNoop s g u h (Or.inr (Or.inr (Or.inr ⟨p, hpo, he⟩)))]
                refine ⟨⟨fun hx => Bool.noConfusion hx, ?_⟩, fun hx => Bool.noConfusion hx,
                  fun _ => rfl⟩
                rintro ⟨_, ⟨p2, e, hel, _⟩, _⟩
                injection e with e2
                subst e2
                rw [he] at hel
                exact Bool.noConfusion hel
              · rw [Bool.not_eq_true] at he
                by_cases hb : p.hasBidThisRound = true
                · rw [hbDupNoop s g u h gm p hgo hst hpo he hb]
                  refine ⟨⟨fun hx => Bool.noConfusion hx, ?_⟩,
                    fun hx => Bool.noConfusion hx, fun _ => rfl⟩
                  rintro ⟨_, ⟨p2, e, _, hbid⟩, _⟩
                  injection e with e2
                  subst e2
                  rw [hb] at hbid
                  exact Bool.noConfusion hbid
                · rw [Bool.not_eq_true] at hb
                  have hgames2 : ((match p.timeBank with
                      | some tb => s.updateParticipantTimeBank g u
                          (mathMax 0 (ratSub tb (msToSec h)))
                      | none => s).updateParticipantBidDetails g u true h).games
                      = s.games := by
                    cases p.timeBank <;> rfl
                  have hg2 : ((match p.timeBank with
                      | some tb => s.updateParticipantTimeBank g u
                          (mathMax 0 (ratSub tb (msToSec h)))
                      | none => s).updateParticipantBidDetails g u true h).getGame g
                      = some gm := by
                    rw [getGame_congr hgames2 g]
                    exact hgo
                  have hlen2 : (((match p.timeBank with
                      | some tb => s.updateParticipantTimeBank g u
                          (mathMax 0 (ratSub tb (msToSec h)))
                      | none => s).updateParticipantBidDetails g u true h).getParticipantsByGame g).length
                      = (s.getParticipantsByGame g).length := by
                    cases p.timeBank with
                    | none => exact parts_len_bidDetails s g u true h g
                    | some tb =>
                        rw [parts_len_bidDetails _ g u true h g]
                        exact parts_len_timeBank s g u _ g
                  have hbr1 : (broadcastToGame ((match p.timeBank with
                      | some tb => s.updateParticipantTimeBank g u
                          (mathMax 0 (ratSub tb (msToSec h)))
                      | none => s).updateParticipantBidDetails g u true h) g
                        (Ev.buzzerRelease g u h)).1
                      = ((match p.timeBank with
                      | some tb => s.updateParticipantTimeBank g u
                          (mathMax 0 (ratSub tb (msToSec h)))
                      | none => s).updateParticipantBidDetails g u true h) := by
                    refine broadcast_fst_id_of_big _ g _ (by rw [hlen2]; exact hcnt) ?_
                    intro gm2 e
                    rw [hg2] at e
                    cases e
                    rw [hst]
                    intro hh
                    cases hh
                  rw [hbAccepted s g u h gm p hgo hst hpo he hb]
                  dsimp only
                  rw [hbr1]
                  have hspec := allBid_spec s g u h p hwf hpo he
                    (((match p.timeBank with
                      | some tb => s.updateParticipantTimeBank g u
                          (mathMax 0 (ratSub tb (msToSec h)))
                      | none => s).updateParticipantBidDetails g u true h).getParticipantsByGame g)
                    rfl
                  refine ⟨?_, ?_, ?_⟩
                  · constructor
                    · intro hx
                      split at hx
                      · rename_i hc
                        exact ⟨⟨gm, rfl, hst⟩, ⟨p, rfl, he, hb⟩, hspec.mp hc⟩
                      · exact Bool.noConfusion hx
                    · rintro ⟨_, _, hall⟩
                      rw [if_pos (hspec.mpr hall)]
                  · intro hx
                    split at hx
                    · rename_i hc
                      rw [if_pos hc]
                      dsimp only
                      rw [currentRoundOf_endCurrentRound_inProgress _ g gm hg2 hst]
                      unfold currentRoundOf
                      rw [hgo]
                      rfl
                    · exact Bool.noConfusion hx
                  · intro hx
                    split at hx
                    · exact Bool.noConfusion hx
                    · rename_i hc
                      rw [if_neg hc]
                      dsimp only
                      exact currentRoundOf_games_congr hgames2 g
        · rw [hbGuardNoop s g u h (Or.inr (Or.inl ⟨gm, hgo, hst⟩))]
          refine ⟨⟨fun hx => Bool.noConfusion hx, ?_⟩, fun hx => Bool.noConfusion hx,
            fun _ => rfl⟩
          rintro ⟨⟨gm2, e, hst2⟩, _, _⟩
          injection e with e2
          subst e2
          exact (hst hst2).elim
  exact ⟨hMain.1, hMain.2.1, hMain.2.2, hD⟩

def gameC3w : Game :=
  { id := 1, createdById := 10, status := GameStatus.waiting,
    currentRound := 1, totalRounds := 3, startingTimeBank := 60, isPublic := true,
    hasBots := false, maxHoldTimeLastRound := 0, roundWinnerId := none }

def storeC3w : Store :=
  { users := [10, 11], games := [gameC3w],
    participants :=
      [{ id := 1, gameId := 1, userId := 10, isHost := true, isReady := false,
         timeBank := some 60, tokensWon := 0, isEliminated := false, isBot := false,
         hasBidThisRound := false, lastHoldTime := 0 },
       { id := 2, gameId := 1, userId := 11, isHost := false, isReady := true,
         timeBank := some 60, tokensWon := 0, isEliminated := false, isBot := false,
         hasBidThisRound := false, lastHoldTime := 0 }],
    rooms := [], participantIdCounter := 3 }

/-- Witness for the amended C3: user 10 flipping to ready in a waiting
two-player game where user 11 is already ready satisfies the start
condition, so the countdown begins. -/
theorem playerReady_start_condition_witness :
    storeC3w.WF
    ∧ ((handlePlayerReady storeC3w 1 10 true).2.2 = true
        ↔ ∃ gm, storeC3w.getGame 1 = some gm ∧ gm.status = GameStatus.waiting
            ∧ 2 ≤ (storeC3w.getParticipantsByGame 1).length
            ∧ ∀ p ∈ (storeC3w.updateParticipantReadyStatus 1 10 true).getParticipantsByGame 1,
                p.isReady = true) :=
  ⟨by decide, playerReady_start_condition storeC3w 1 10 true (by decide)⟩

def partC2w : Participant :=
  { id := 1, gameId := 1, userId := 10, isHost := true, isReady := true,
    timeBank := some 60, tokensWon := 0, isEliminated := false, isBot := false,
    hasBidThisRound := false, lastHoldTime := 0 }

def storeC2w : Store :=
  { users := [10, 11], games := [gameC2x],
    participants :=
      [partC2w,
       { id := 2, gameId := 1, userId := 11, isHost := false, isReady := true,
         timeBank := some 60, tokensWon := 0, isEliminated := false, isBot := false,
         hasBidThisRound := true, lastHoldTime := 1500 }],
    rooms := [], participantIdCounter := 3 }

/-- Witness for the amended C2: in `storeC2w` (in-progress game, user 11
already bid, user 10 valid and bid-free) the resolution condition holds,
so a 2000 ms release by user 10 resolves the round and advances
`currentRound`. -/
theorem buzzerRelease_resolution_condition_witness :
    storeC2w.WF ∧ 2 ≤ (storeC2w.getParticipantsByGame 1).length
    ∧ (((handleBuzzerRelease storeC2w 1 10 2000).2.2 = true
        ↔ (∃ gm, storeC2w.getGame 1 = some gm ∧ gm.status = GameStatus.inProgress)
          ∧ (∃ p, storeC2w.getParticipant 1 10 = some p ∧ p.isEliminated = false
              ∧ p.hasBidThisRound = false)
          ∧ (∀ q ∈ storeC2w.getParticipantsByGame 1, q.isEliminated = false →
              (q.hasBidThisRound = true ∨ q.userId = 10)))
      ∧ ((handleBuzzerRelease storeC2w 1 10 2000).2.2 = true →
          currentRoundOf (handleBuzzerRelease storeC2w 1 10 2000).1 1
            = (currentRoundOf storeC2w 1).map (fun n => n + 1))
      ∧ ((handleBuzzerRelease storeC2w 1 10 2000).2.2 = false →
          currentRoundOf (handleBuzzerRelease storeC2w 1 10 2000).1 1
            = currentRoundOf storeC2w 1)
      ∧ ((∀ q ∈ storeC2w.getParticipantsByGame 1, q.isEliminated = true) →
          handleBuzzerRelease storeC2w 1 10 2000 = (storeC2w, [], false))) :=
  ⟨by decide, by decide,
    buzzerRelease_resolution_condition storeC2w 1 10 2000 (by decide) (by decide)⟩

/-- Number of stored participant rows carrying one `(gameId, userId)` key. -/
def rowCount (s : Store) (g u : Nat) : Nat :=
  (s.participants.filter (fun p => p.gameId == g && p.userId == u)).length

/-- Row maps that keep a participant's identity key and the three durable
per-game fields (token count, elimination flag, time bank). -/
def keepsRow (χ : Participant → Participant) : Prop :=
  ∀ q, (χ q).gameId = q.gameId ∧ (χ q).userId = q.userId
    ∧ (χ q).tokensWon = q.tokensWon ∧ (χ q).isEliminated = q.isEliminated
    ∧ (χ q).timeBank = q.timeBank

theorem keepsRow_id : keepsRow id := fun _ => ⟨rfl, rfl, rfl, rfl, rfl⟩

theorem keepsRow_comp {χ₁ χ₂ : Participant → Participant}
    (h₁ : keepsRow χ₁) (h₂ : keepsRow χ₂) : keepsRow (fun q => χ₂ (χ₁ q)) := by
  intro q
  obtain ⟨a1, b1, c1, d1, e1⟩ := h₁ q
  obtain ⟨a2, b2, c2, d2, e2⟩ := h₂ (χ₁ q)
  exact ⟨a2.trans a1, b2.trans b1, c2.trans c1, d2.trans d1, e2.trans e1⟩

theorem keepsRow_pointUpdate (g u : Nat) (f : Participant → Participant)
    (hf : keepsRow f) :
    keepsRow (fun p => if p.gameId == g && p.userId == u then f p else p) := by
  intro q
  dsimp only
  split
  · exact hf q
  · exact ⟨rfl, rfl, rfl, rfl, rfl⟩

theorem joinFinish_participants (s : Store) (g u : Nat) :
    (joinFinish s g u).1.participants = s.participants := by
  unfold joinFinish
  dsimp only
  rw [broadcastToGame_participants, roomAdd_participants]

theorem addParticipant_not_present (s : Store) (p0 : Participant)
    (hnp : (s.participants.any fun q => q.gameId == p0.gameId && q.userId == p0.userId)
      = false) :
    (s.addParticipant p0).participants
      = s.participants ++ [{ p0 with id := s.participantIdCounter }] := by
  unfold Store.addParticipant
  dsimp only
  rw [hnp]
  simp

theorem pairwise_keys_le_one (l : List Participant) (g u : Nat)
    (hpw : l.Pairwise (fun a b => a.gameId ≠ b.gameId ∨ a.userId ≠ b.userId)) :
    (l.filter (fun p => p.gameId == g && p.userId == u)).length ≤ 1 := by
  have hpf : (l.filter (fun p => p.gameId == g && p.userId == u)).Pairwise
      (fun a b => a.gameId ≠ b.gameId ∨ a.userId ≠ b.userId) :=
    List.Pairwise.sublist (List.filter_sublist l) hpw
  cases hf : l.filter (fun p => p.gameId == g && p.userId == u) with
  | nil => simp
  | cons a t =>
      cases t with
      | nil => simp
      | cons b t2 =>
          exfalso
          rw [hf] at hpf
          have hab := (List.pairwise_cons.mp hpf).1 b (List.mem_cons_self b t2)
          have ham : a ∈ l.filter (fun p => p.gameId == g && p.userId == u) := by
            rw [hf]; exact List.mem_cons_self _ _
          have hbm : b ∈ l.filter (fun p => p.gameId == g && p.userId == u) := by
            rw [hf]; exact List.mem_cons_of_mem _ (List.mem_cons_self _ _)
          have ha2 := (List.mem_filter.mp ham).2
          have hb2 := (List.mem_filter.mp hbm).2
          simp only [Bool.and_eq_true, beq_iff_eq] at ha2 hb2
          rcases hab with hc | hc
          · exact hc (ha2.1.trans hb2.1.symm)
          · exact hc (ha2.2.trans hb2.2.symm)

/-- The participant row `handleJoinGame` builds for a first-time joiner,
before the storage assigns the fresh row id. -/
def newJoinRow (s : Store) (game : Game) (g u : Nat) : Participant :=
  { id := 0, gameId := g, userId := u,
    isHost := game.createdById == u
      && ((s.getParticipantsByGame g).find? (fun p => p.isHost)).isNone,
    isReady := game.createdById == u
      && ((s.getParticipantsByGame g).find? (fun p => p.isHost)).isNone,
    timeBank := some game.startingTimeBank, tokensWon := 0,
    isEliminated := false, isBot := false,
    hasBidThisRound := false, lastHoldTime := 0 }

theorem handleJoinGame_parts_cases (s : Store) (g u : Nat) :
    (∃ χ, keepsRow χ ∧ (handleJoinGame s g u).1.participants = s.participants.map χ)
    ∨ (s.getParticipant g u = none
        ∧ ∃ q, (handleJoinGame s g u).1.participants = s.participants ++ [q]
            ∧ q.gameId = g ∧ q.userId = u) := by
  unfold handleJoinGame
  cases hg : s.getGame g with
  | none => exact Or.inl ⟨id, keepsRow_id, (List.map_id _).symm⟩
  | some game =>
      dsimp only
      split
      · exact Or.inl ⟨id, keepsRow_id, (List.map_id _).symm⟩
      · cases hp : s.getParticipant g u with
        | none =>
            dsimp only
            split
            · exact Or.inl ⟨id, keepsRow_id, (List.map_id _).symm⟩
            · refine Or.inr ⟨rfl, ?_⟩
              have hp2 : s.participants.find?
                  (fun p => p.gameId == g && p.userId == u) = none := hp
              have hpres : (s.participants.any
                  fun q2 => q2.gameId == g && q2.userId == u) = false := by
                by_contra hc
                rw [Bool.not_eq_false] at hc
                obtain ⟨x, hx, hpx⟩ := List.any_eq_true.mp hc
                exact (List.find?_eq_none.mp hp2 x hx) hpx
              refine ⟨{ newJoinRow s game g u with id := s.participantIdCounter },
                ?_, rfl, rfl⟩
              rw [joinFinish_participants]
              split
              · exact addParticipant_not_present s (newJoinRow s game g u) hpres
              · exact addParticipant_not_present s (newJoinRow s game g u) hpres
        | some p =>
            dsimp only
            split
            · split
              · cases hq : ((s.updateParticipantHostStatus g u true).updateGameHost g u).getParticipant g u with
                | none =>
                    refine Or.inl ⟨fun p2 => if p2.gameId == g && p2.userId == u then
                        { p2 with isHost := true } else p2,
                      keepsRow_pointUpdate g u _ (fun _ => ⟨rfl, rfl, rfl, rfl, rfl⟩), ?_⟩
                    rw [joinFinish_participants]
                    rfl
                | some q =>
                    dsimp only
                    split
                    · refine Or.inl ⟨fun p2 =>
                          (fun p3 => if p3.gameId == g && p3.userId == u then
                            { p3 with isReady := true } else p3)
                          ((fun p3 => if p3.gameId == g && p3.userId == u then
                            { p3 with isHost := true } else p3) p2), ?_, ?_⟩
                      · exact keepsRow_comp
                          (keepsRow_pointUpdate g u
                            (fun p3 => { p3 with isHost := true })
                            (fun _ => ⟨rfl, rfl, rfl, rfl, rfl⟩))
                          (keepsRow_pointUpdate g u
                            (fun p3 => { p3 with isReady := true })
                            (fun _ => ⟨rfl, rfl, rfl, rfl, rfl⟩))
                      · rw [joinFinish_participants]
                        exact List.map_map
                          (fun p3 => if p3.gameId == g && p3.userId == u then
                            { p3 with isReady := true } else p3)
                          (fun p3 => if p3.gameId == g && p3.userId == u then
                            { p3 with isHost := true } else p3)
                          s.participants
                    · refine Or.inl ⟨fun p2 => if p2.gameId == g && p2.userId == u then
                          { p2 with isHost := true } else p2,
                        keepsRow_pointUpdate g u _ (fun _ => ⟨rfl, rfl, rfl, rfl, rfl⟩), ?_⟩
                      rw [joinFinish_participants]
                      rfl
              · refine Or.inl ⟨id, keepsRow_id, ?_⟩
                rw [joinFinish_participants]
                exact (List.map_id _).symm
            · refine Or.inl ⟨id, keepsRow_id, ?_⟩
              rw [joinFinish_participants]
              exact (List.map_id _).symm

theorem handleJoinGame_partsU (s : Store) (g u : Nat) (hwf : s.WF) :
    (handleJoinGame s g u).1.participants.Pairwise
      (fun a b => a.gameId ≠ b.gameId ∨ a.userId ≠ b.userId) := by
  rcases handleJoinGame_parts_cases s g u with ⟨χ, hχ, he⟩ | ⟨hp, q, he, hqg, hqu⟩
  · rw [he]
    exact List.Pairwise.map χ
      (fun a b hab => hab.imp
        (fun hc => by rw [(hχ a).1, (hχ b).1]; exact hc)
        (fun hc => by rw [(hχ a).2.1, (hχ b).2.1]; exact hc))
      hwf.partsU
  · rw [he]
    have hp2 : s.participants.find?
        (fun p => p.gameId == g && p.userId == u) = none := hp
    refine List.pairwise_append.mpr ⟨hwf.partsU, by simp, ?_⟩
    intro a ha b hb
    have hb2 : b = q := by simpa using hb
    subst hb2
    have := List.find?_eq_none.mp hp2 a ha
    simp only [Bool.and_eq_true, beq_iff_eq, not_and] at this
    rw [hqg, hqu]
    by_cases hga : a.gameId = g
    · exact Or.inr (this hga)
    · exact Or.inl hga

theorem getParticipant_of_map {s t : Store} (g u : Nat)
    {χ : Participant → Participant}
    (hk : ∀ q, (χ q).gameId = q.gameId ∧ (χ q).userId = q.userId)
    (he : t.participants = s.participants.map χ) :
    t.getParticipant g u = (s.getParticipant g u).map χ := by
  unfold Store.getParticipant
  rw [he]
  refine find?_map_pred χ _ (fun a => ?_) s.participants
  simp [(hk a).1, (hk a).2]

theorem handleJoinGame_rejoin_getParticipant (s : Store) (g u : Nat)
    (p : Participant) (hp : s.getParticipant g u = some p) :
    ∃ p2, (handleJoinGame s g u).1.getParticipant g u = some p2
      ∧ p2.tokensWon = p.tokensWon ∧ p2.isEliminated = p.isEliminated
      ∧ p2.timeBank = p.timeBank := by
  rcases handleJoinGame_parts_cases s g u with ⟨χ, hχ, he⟩ | ⟨hnone, _⟩
  · have hgp := getParticipant_of_map g u
      (fun q => ⟨(hχ q).1, (hχ q).2.1⟩) he
    rw [hp, Option.map_some'] at hgp
    exact ⟨χ p, hgp, (hχ p).2.2.1, (hχ p).2.2.2.1, (hχ p).2.2.2.2⟩
  · rw [hp] at hnone
    cases hnone

/-- C6: processing a JOIN_GAME preserves row uniqueness — afterwards at
most one participant row exists for every `(gameId, userId)` pair, a
rejoin resolving to the existing row rather than creating a duplicate —
and a rejoin by a user who already has a row keeps that row's
`tokensWon`, `isEliminated` and `timeBank` unchanged (at most the
host/ready flags change, for the game's creator). -/
theorem joinGame_no_duplicate_rejoin_frame (s : Store) (g u : Nat) (hwf : s.WF) :
    (∀ x y : Nat, rowCount (handleJoinGame s g u).1 x y ≤ 1)
    ∧ ∀ p, s.getParticipant g u = some p →
        ∃ p2, (handleJoinGame s g u).1.getParticipant g u = some p2
          ∧ p2.tokensWon = p.tokensWon ∧ p2.isEliminated = p.isEliminated
          ∧ p2.timeBank = p.timeBank :=
  ⟨fun x y => pairwise_keys_le_one _ x y (handleJoinGame_partsU s g u hwf),
   fun p hp => handleJoinGame_rejoin_getParticipant s g u p hp⟩

def gameC6w : Game :=
  { id := 1, createdById := 10, status := GameStatus.waiting,
    currentRound := 1, totalRounds := 3, startingTimeBank := 60, isPublic := true,
    hasBots := false, maxHoldTimeLastRound := 0, roundWinnerId := none }

def partC6w : Participant :=
  { id := 1, gameId := 1, userId := 10, isHost := false, isReady := false,
    timeBank := some 42, tokensWon := 3, isEliminated := false, isBot := false,
    hasBidThisRound := false, lastHoldTime := 0 }

def storeC6w : Store :=
  { users := [10], games := [gameC6w], participants := [partC6w],
    rooms := [], participantIdCounter := 2 }

/-- Witness for C6: user 10 rejoining game 1 (where they already hold 3
tokens and a 42-second bank) keeps a single row whose tokens, elimination
flag and bank are untouched. -/
theorem joinGame_no_duplicate_rejoin_frame_witness :
    storeC6w.WF
    ∧ rowCount (handleJoinGame storeC6w 1 10).1 1 10 ≤ 1
    ∧ ∃ p2, (handleJoinGame storeC6w 1 10).1.getParticipant 1 10 = some p2
        ∧ p2.tokensWon = partC6w.tokensWon ∧ p2.isEliminated = partC6w.isEliminated
        ∧ p2.timeBank = partC6w.timeBank :=
  ⟨by decide,
   (joinGame_no_duplicate_rejoin_frame storeC6w 1 10 (by decide)).1 1 10,
   (joinGame_no_duplicate_rejoin_frame storeC6w 1 10 (by decide)).2 partC6w (by decide)⟩

theorem find?_filter_ne_key (t : List (Nat × RoomMembers)) (x g : Nat) (hne : x ≠ g) :
    (t.filter (fun r => r.1 != x)).find? (fun r => r.1 == g)
      = t.find? (fun r => r.1 == g) := by
  induction t with
  | nil => rfl
  | cons r t ih =>
      by_cases hr : r.1 = g
      · have hx : (r.1 != x) = true := by
          rw [hr]
          exact bne_iff_ne.mpr (fun hh => hne hh.symm)
        have hg2 : (r.1 == g) = true := beq_iff_eq.mpr hr
        simp [List.filter_cons, hx, List.find?_cons, hg2]
      · have hg2 : (r.1 == g) = false := beq_eq_false_iff_ne.mpr hr
        by_cases hx : (r.1 != x) = true
        · simp only [List.filter_cons, hx, if_true, List.find?_cons, hg2]
          exact ih
        · rw [Bool.not_eq_true] at hx
          simp only [List.filter_cons, hx, if_false, List.find?_cons, hg2]
          exact ih

theorem room_deleteRoom_ne (s : Store) (x g : Nat) (hne : x ≠ g) :
    (s.deleteRoom x).room g = s.room g := by
  unfold Store.deleteRoom Store.room
  dsimp only
  rw [find?_filter_ne_key s.rooms x g hne]

theorem openClients_congr_room {s t : Store} (g : Nat) (h : t.room g = s.room g) :
    t.openClients g = s.openClients g := by
  unfold Store.openClients
  rw [h]

theorem statusOf_updateGameStatus_ne (s : Store) (x : Nat) (c : GameStatus) (g : Nat)
    (hne : x ≠ g) : statusOf (s.updateGameStatus x c) g = statusOf s g := by
  unfold statusOf Store.updateGameStatus
  rw [getGame_updateGame s x g (fun gm => { gm with status := c }) (fun gm => rfl)]
  cases hg : s.getGame g with
  | none => rfl
  | some r =>
      have hr : r.id = g := getGame_key hg
      have hneq : (r.id == x) = false := by
        rw [hr]
        exact beq_eq_false_iff_ne.mpr (fun hh => hne hh.symm)
      have hner : r.id ≠ x := by
        rw [hr]
        exact fun hh => hne hh.symm
      simp [hneq, hner]

theorem statusOf_updateGameStatus_self (t : Store) (x : Nat) (c : GameStatus) :
    statusOf (t.updateGameStatus x c) x = (statusOf t x).map (fun _ => c) := by
  unfold statusOf Store.updateGameStatus
  rw [getGame_updateGame t x x (fun gm => { gm with status := c }) (fun gm => rfl)]
  cases hg : t.getGame x with
  | none => rfl
  | some r =>
      have hr : r.id = x := getGame_key hg
      simp [hr]

theorem cleanupStep_eq (s : Store) (gm : Game) :
    cleanupStep s gm
      = if (s.getParticipantsByGame gm.id).length < 2
          ∨ ((s.openClients gm.id = 0) ∧ gm.status = GameStatus.waiting)
        then (s.updateGameStatus gm.id GameStatus.completed).deleteRoom gm.id
        else s := rfl

theorem cleanupStep_participants (s : Store) (gm : Game) :
    (cleanupStep s gm).participants = s.participants := by
  unfold cleanupStep
  dsimp only
  split
  · rfl
  · rfl

theorem cleanupStep_frame (s : Store) (gm : Game) (g : Nat) (hne : gm.id ≠ g) :
    statusOf (cleanupStep s gm) g = statusOf s g
    ∧ (cleanupStep s gm).room g = s.room g := by
  unfold cleanupStep
  dsimp only
  split
  · constructor
    · have h1 : statusOf
          ((s.updateGameStatus gm.id GameStatus.completed).deleteRoom gm.id) g
          = statusOf (s.updateGameStatus gm.id GameStatus.completed) g := rfl
      rw [h1, statusOf_updateGameStatus_ne s gm.id _ g hne]
    · have h2 : ((s.updateGameStatus gm.id GameStatus.completed).deleteRoom gm.id).room g
          = (s.deleteRoom gm.id).room g := rfl
      rw [h2, room_deleteRoom_ne s gm.id g hne]
  · exact ⟨rfl, rfl⟩

theorem foldCleanup_frame (L : List Game) (s : Store) (g : Nat)
    (hL : ∀ gm ∈ L, gm.id ≠ g) :
    statusOf (L.foldl cleanupStep s) g = statusOf s g
    ∧ (L.foldl cleanupStep s).room g = s.room g := by
  induction L generalizing s with
  | nil => exact ⟨rfl, rfl⟩
  | cons a t ih =>
      have ha := hL a (List.mem_cons_self _ _)
      have hstep := cleanupStep_frame s a g ha
      have ht := ih (cleanupStep s a) (fun gm hm => hL gm (List.mem_cons_of_mem _ hm))
      exact ⟨ht.1.trans hstep.1, ht.2.trans hstep.2⟩

theorem foldCleanup_participants (L : List Game) (s : Store) :
    (L.foldl cleanupStep s).participants = s.participants := by
  induction L generalizing s with
  | nil => rfl
  | cons a t ih => rw [List.foldl_cons, ih, cleanupStep_participants]

theorem find?_id_of_mem (L : List Game) (hU : L.Pairwise (fun a b => a.id ≠ b.id))
    (gm : Game) (hm : gm ∈ L) :
    L.find? (fun x => x.id == gm.id) = some gm := by
  induction L with
  | nil => cases hm
  | cons a t ih =>
      rcases List.mem_cons.mp hm with rfl | hm2
      · simp [List.find?_cons]
      · have ha : a.id ≠ gm.id := (List.pairwise_cons.mp hU).1 gm hm2
        have hfa : (a.id == gm.id) = false := beq_eq_false_iff_ne.mpr ha
        simp only [List.find?_cons, hfa, if_false]
        exact ih (List.pairwise_cons.mp hU).2 hm2

theorem getGame_of_mem {s : Store} (hwf : s.WF) {gm : Game} (hm : gm ∈ s.games) :
    s.getGame gm.id = some gm :=
  find?_id_of_mem s.games hwf.gamesU gm hm

/-- C9 (amended): one sweeper pass (`cleanupGames`) force-completes a game
exactly when it is public AND still `waiting` AND understaffed (fewer than
2 participants) or clientless (zero open sockets); every other game keeps
its status.  The unamended claim promises the sweep for every open
(non-completed) game, but the source iterates `storage.getPublicGames()`,
which returns only public games whose status is `waiting` — private or
already-started games are never examined. -/
theorem cleanup_completes_exactly_stale_public_waiting (s : Store) (hwf : s.WF) :
    ∀ gm ∈ s.games,
      statusOf (cleanupGames s) gm.id
        = some (if gm.isPublic = true ∧ gm.status = GameStatus.waiting
              ∧ ((s.getParticipantsByGame gm.id).length < 2
                  ∨ s.openClients gm.id = 0)
            then GameStatus.completed else gm.status) := by
  intro gm hm
  have hU : s.getPublicGames.Pairwise (fun a b => a.id ≠ b.id) :=
    List.Pairwise.sublist (List.filter_sublist s.games) hwf.gamesU
  have hst0 : statusOf s gm.id = some gm.status := by
    unfold statusOf
    rw [getGame_of_mem hwf hm]
    rfl
  by_cases hmemL : gm ∈ s.getPublicGames
  · obtain ⟨L₁, L₂, hL⟩ := List.append_of_mem hmemL
    have hUsplit := hL ▸ hU
    have hpairs := List.pairwise_append.mp hUsplit
    have hL₁ : ∀ x ∈ L₁, x.id ≠ gm.id :=
      fun x hx => hpairs.2.2 x hx gm (List.mem_cons_self _ _)
    have hL₂ : ∀ x ∈ L₂, x.id ≠ gm.id :=
      fun x hx => ((List.pairwise_cons.mp hpairs.2.1).1 x hx).symm
    have hpub : (gm.isPublic && gm.status == GameStatus.waiting) = true :=
      (List.mem_filter.mp hmemL).2
    simp only [Bool.and_eq_true, beq_iff_eq, gameStatus_beq_iff] at hpub
    unfold cleanupGames
    rw [hL, List.foldl_append, List.foldl_cons]
    have hfr1 := foldCleanup_frame L₁ s gm.id hL₁
    have hparts1 := foldCleanup_participants L₁ s
    have hlen1 : (L₁.foldl cleanupStep s).getParticipantsByGame gm.id
        = s.getParticipantsByGame gm.id := getParticipantsByGame_congr hparts1 gm.id
    have hopen1 : (L₁.foldl cleanupStep s).openClients gm.id = s.openClients gm.id :=
      openClients_congr_room gm.id hfr1.2
    have hstep : cleanupStep (L₁.foldl cleanupStep s) gm
        = if (s.getParticipantsByGame gm.id).length < 2
            ∨ ((s.openClients gm.id = 0) ∧ gm.status = GameStatus.waiting)
          then ((L₁.foldl cleanupStep s).updateGameStatus gm.id
              GameStatus.completed).deleteRoom gm.id
          else L₁.foldl cleanupStep s := by
      rw [cleanupStep_eq, hlen1, hopen1]
    rw [hstep]
    by_cases hcond : (s.getParticipantsByGame gm.id).length < 2
        ∨ ((s.openClients gm.id = 0) ∧ gm.status = GameStatus.waiting)
    · rw [if_pos hcond]
      have hfr2 := foldCleanup_frame L₂
        (((L₁.foldl cleanupStep s).updateGameStatus gm.id
          GameStatus.completed).deleteRoom gm.id) gm.id hL₂
      rw [hfr2.1]
      have hdel : statusOf (((L₁.foldl cleanupStep s).updateGameStatus gm.id
            GameStatus.completed).deleteRoom gm.id) gm.id
          = statusOf ((L₁.foldl cleanupStep s).updateGameStatus gm.id
            GameStatus.completed) gm.id := rfl
      rw [hdel, statusOf_updateGameStatus_self, hfr1.1, hst0]
      have hcond2 : gm.isPublic = true ∧ gm.status = GameStatus.waiting
          ∧ ((s.getParticipantsByGame gm.id).length < 2 ∨ s.openClients gm.id = 0) := by
        refine ⟨hpub.1, hpub.2, ?_⟩
        rcases hcond with hc | hc
        · exact Or.inl hc
        · exact Or.inr hc.1
      rw [if_pos hcond2]
      rfl
    · rw [if_neg hcond]
      have hfr2 := foldCleanup_frame L₂ (L₁.foldl cleanupStep s) gm.id hL₂
      rw [hfr2.1, hfr1.1, hst0]
      have hcond2 : ¬(gm.isPublic = true ∧ gm.status = GameStatus.waiting
          ∧ ((s.getParticipantsByGame gm.id).length < 2 ∨ s.openClients gm.id = 0)) := by
        rintro ⟨-, hw, hor⟩
        rcases hor with hc | hc
        · exact hcond (Or.inl hc)
        · exact hcond (Or.inr ⟨hc, hw⟩)
      rw [if_neg hcond2]
  · have hids : ∀ x ∈ s.getPublicGames, x.id ≠ gm.id := by
      intro x hx hid
      have hxg : x ∈ s.games := (List.mem_filter.mp hx).1
      by_cases hxeq : x = gm
      · exact hmemL (hxeq ▸ hx)
      · have hsymm : Symmetric (fun a b : Game => a.id ≠ b.id) :=
          fun a b hab => Ne.symm hab
        have := List.Pairwise.forall hsymm hwf.gamesU hxg hm hxeq
        exact this hid
    unfold cleanupGames
    rw [(foldCleanup_frame s.getPublicGames s gm.id hids).1, hst0]
    have hcond2 : ¬(gm.isPublic = true ∧ gm.status = GameStatus.waiting
        ∧ ((s.getParticipantsByGame gm.id).length < 2 ∨ s.openClients gm.id = 0)) := by
      rintro ⟨hp, hw, -⟩
      exact hmemL (List.mem_filter.mpr ⟨hm, by simp [hp, hw, gameStatus_beq_iff]⟩)
    rw [if_neg hcond2]

def gameC9w : Game :=
  { id := 1, createdById := 10, status := GameStatus.waiting,
    currentRound := 1, totalRounds := 3, startingTimeBank := 60, isPublic := true,
    hasBots := false, maxHoldTimeLastRound := 0, roundWinnerId := none }

def storeC9w : Store :=
  { users := [10], games := [gameC9w],
    participants :=
      [{ id := 1, gameId := 1, userId := 10, isHost := true, isReady := false,
         timeBank := some 60, tokensWon := 0, isEliminated := false, isBot := false,
         hasBidThisRound := false, lastHoldTime := 0 }],
    rooms := [], participantIdCounter := 2 }

/-- Witness for the amended C9: a public waiting game with a single
participant and no open client is force-completed by one sweep. -/
theorem cleanup_completes_exactly_stale_public_waiting_witness :
    storeC9w.WF
    ∧ statusOf (cleanupGames storeC9w) gameC9w.id
        = some (if gameC9w.isPublic = true ∧ gameC9w.status = GameStatus.waiting
              ∧ ((storeC9w.getParticipantsByGame gameC9w.id).length < 2
                  ∨ storeC9w.openClients gameC9w.id = 0)
            then GameStatus.completed else gameC9w.status) :=
  ⟨by decide,
   cleanup_completes_exactly_stale_public_waiting storeC9w (by decide) gameC9w
     (by decide)⟩

end TimeAuction
